import Mathlib

/-!
Verification of the cli-conway repository (Conway's Game of Life in Go).

The repository contains several variants of the game board:
* `grid.go` : a `[][]byte` board whose `SetCell` takes a `bool`, with a
  `Display` renderer that clears the screen (`\033[H\033[2J`).  Embedded
  here as `GoGrid`.
* a bitmask board storing cells in a `[]uint64`, with `MakeItSo` renderer
  (`\033[H` only) and evolution `BoldlyGo`.  Embedded as `BitGrid`.
* a plain `[][]byte` board whose `SetCell` stores an arbitrary byte
  verbatim, with `BoldlyGo`.  Embedded as `ByteGrid`.
* a `[][]byte` board with a memoized neighbor-count cache
  (`neighborCache`, `cacheValid` maps keyed by "x,y" strings) and a
  cache-carrying `BoldlyGo`.  Embedded as `CacheGrid`.

Go 2D arrays `cells[y][x]` are embedded as total functions
`Int → Int → Nat` (row index first); every access in the Go source is
bounds-checked or performed at loop indices inside the bounds, so only
values at `0 ≤ x < width`, `0 ≤ y < height` are ever read.  Go maps keyed
by the string `fmt.Sprintf("%d,%d", x, y)` are embedded as total
functions from `Int × Int` (the formatting is injective, and a missing
key reads as the zero value, i.e. `0` / `false`).  The `uint64` slice of
the bitmask board is embedded as a `List Nat` whose entries stand for
the 64-bit words; the Go operator `&^` (and-not) on `uint64` is embedded
as `&&& ((2^64 - 1) ^^^ (1 <<< p))`, the 64-bit complement being an xor
with all-ones.
-/

/-- Update of a 2D cell function: `cells[y][x] = v`. -/
def upd2 (c : Int → Int → Nat) (y x : Int) (v : Nat) : Int → Int → Nat :=
  fun y' x' => if y' = y ∧ x' = x then v else c y' x'

/-- Update of an `Int`-valued coordinate-keyed map: `m[key] = v`. -/
def updN (m : Int × Int → Nat) (k : Int × Int) (v : Nat) : Int × Int → Nat :=
  fun k' => if k' = k then v else m k'

/-- Update of a `Bool`-valued coordinate-keyed map: `m[key] = v`. -/
def updB (m : Int × Int → Bool) (k : Int × Int) (v : Bool) : Int × Int → Bool :=
  fun k' => if k' = k then v else m k'

/-- The list `[0, 1, ..., n-1]` as `Int`s: the values taken by a Go
`for i := 0; i < n; i++` loop variable. -/
def intRange (n : Nat) : List Int :=
  (List.range n).map Int.ofNat

/-- The nested row-major double loop `for y := 0..h-1 { for x := 0..w-1 { body } }`
threading a state. -/
def gridFold {α : Type} (w h : Nat) (body : α → Int → Int → α) (init : α) : α :=
  (intRange h).foldl (fun a y => (intRange w).foldl (fun a x => body a x y) a) init

/-- In-bounds test used throughout the Go source:
`x >= 0 && x < width && y >= 0 && y < height`. -/
def inBounds (w h : Nat) (x y : Int) : Prop :=
  0 ≤ x ∧ x < (w : Int) ∧ 0 ≤ y ∧ y < (h : Int)

instance (w h : Nat) (x y : Int) : Decidable (inBounds w h x y) := by
  unfold inBounds; infer_instance

theorem upd2_same (c : Int → Int → Nat) (y x : Int) (v : Nat)
    (h : c y x = v) : upd2 c y x v = c := by
  funext y' x'
  unfold upd2
  by_cases hc : y' = y ∧ x' = x
  · rcases hc with ⟨rfl, rfl⟩; simp [h]
  · simp [hc]

theorem intRange_succ (n : Nat) :
    intRange (n + 1) = intRange n ++ [(n : Int)] := by
  simp [intRange, List.range_succ]

theorem intRange_zero : intRange 0 = [] := rfl

/-- Generic specification of a row-major write pass.  `view` projects the
observable per-coordinate content of the loop state, `Q` is a side
invariant, and `f` gives the value the body writes at each coordinate.
The body may only touch the view at the coordinate it is visiting, and
is only required to behave when that coordinate is still untouched. -/
theorem gridFold_spec {α β : Type} (w h : Nat) (body : α → Int → Int → α)
    (Q : α → Prop) (view : α → Int → Int → β) (f : Int → Int → β) (init : α)
    (hQ0 : Q init)
    (hbody : ∀ a x y, Q a → 0 ≤ x → x < (w : Int) → 0 ≤ y → y < (h : Int) →
      view a x y = view init x y →
      Q (body a x y) ∧
        ∀ x' y', view (body a x y) x' y' =
          if x' = x ∧ y' = y then f x y else view a x' y') :
    Q (gridFold w h body init) ∧
      ∀ x y, view (gridFold w h body init) x y =
        if inBounds w h x y then f x y else view init x y := by
  -- inner loop: one row
  have row : ∀ (yk : Int), 0 ≤ yk → yk < (h : Int) →
      ∀ (n : Nat), (n : Int) ≤ (w : Int) →
      ∀ a, Q a →
      (∀ x' y', view a x' y' =
        if (0 ≤ x' ∧ x' < (w : Int) ∧ 0 ≤ y' ∧ y' < yk) then f x' y'
        else view init x' y') →
      Q ((intRange n).foldl (fun a x => body a x yk) a) ∧
        ∀ x' y', view ((intRange n).foldl (fun a x => body a x yk) a) x' y' =
          if (0 ≤ x' ∧ x' < (w : Int) ∧ 0 ≤ y' ∧ y' < yk) ∨
             (0 ≤ x' ∧ x' < (n : Int) ∧ y' = yk) then f x' y'
          else view init x' y' := by
    intro yk hyk0 hykh n
    induction n with
    | zero =>
      intro _ a hQ hview
      simp only [intRange_zero, List.foldl_nil]
      refine ⟨hQ, ?_⟩
      intro x' y'
      rw [hview x' y']
      apply if_congr _ rfl rfl
      constructor
      · intro hc; exact Or.inl hc
      · rintro (hc | hc)
        · exact hc
        · exfalso; omega
    | succ n ih =>
      intro hn a hQ hview
      have hn' : (n : Int) ≤ (w : Int) := by push_cast at hn ⊢; omega
      obtain ⟨hQ1, hview1⟩ := ih hn' a hQ hview
      rw [intRange_succ, List.foldl_append]
      simp only [List.foldl_cons, List.foldl_nil]
      have huntouched :
          view ((intRange n).foldl (fun a x => body a x yk) a) (n : Int) yk =
            view init (n : Int) yk := by
        rw [hview1]
        rw [if_neg]
        omega
      have hnw : (n : Int) < (w : Int) := by push_cast at hn ⊢; omega
      obtain ⟨hQ2, hview2⟩ :=
        hbody _ (n : Int) yk hQ1 (by positivity) hnw hyk0 hykh huntouched
      refine ⟨hQ2, ?_⟩
      intro x' y'
      rw [hview2 x' y']
      by_cases hxy : x' = (n : Int) ∧ y' = yk
      · rcases hxy with ⟨rfl, rfl⟩
        rw [if_pos ⟨rfl, rfl⟩, if_pos]
        push_cast
        omega
      · rw [if_neg hxy, hview1 x' y']
        apply if_congr _ rfl rfl
        constructor
        · rintro (hc | hc)
          · exact Or.inl hc
          · right
            push_cast at hc ⊢
            omega
        · rintro (hc | hc)
          · exact Or.inl hc
          · right
            push_cast at hc ⊢
            rcases hc with ⟨h1, h2, h3⟩
            refine ⟨h1, ?_, h3⟩
            rcases lt_or_eq_of_le (by omega : x' ≤ (n : Int)) with hlt | heq
            · omega
            · exact absurd ⟨heq, h3⟩ hxy
  -- outer loop: all rows
  have outer : ∀ (k : Nat), (k : Int) ≤ (h : Int) →
      Q ((intRange k).foldl
          (fun a y => (intRange w).foldl (fun a x => body a x y) a) init) ∧
      ∀ x' y', view ((intRange k).foldl
          (fun a y => (intRange w).foldl (fun a x => body a x y) a) init) x' y' =
        if (0 ≤ x' ∧ x' < (w : Int) ∧ 0 ≤ y' ∧ y' < (k : Int)) then f x' y'
        else view init x' y' := by
    intro k
    induction k with
    | zero =>
      intro _
      simp only [intRange_zero, List.foldl_nil]
      refine ⟨hQ0, ?_⟩
      intro x' y'
      rw [if_neg]
      push_cast
      omega
    | succ k ih =>
      intro hk
      have hk' : (k : Int) ≤ (h : Int) := by push_cast at hk ⊢; omega
      obtain ⟨hQ1, hview1⟩ := ih hk'
      rw [intRange_succ, List.foldl_append]
      simp only [List.foldl_cons, List.foldl_nil]
      have hkh : (k : Int) < (h : Int) := by push_cast at hk ⊢; omega
      obtain ⟨hQ2, hview2⟩ :=
        row (k : Int) (by positivity) hkh w (le_refl _) _ hQ1 hview1
      refine ⟨hQ2, ?_⟩
      intro x' y'
      rw [hview2 x' y']
      apply if_congr _ rfl rfl
      push_cast
      constructor
      · rintro (hc | hc) <;> omega
      · intro hc
        by_cases hy : y' < (k : Int)
        · left; omega
        · right; omega
  have := outer h (le_refl _)
  unfold gridFold
  refine ⟨this.1, ?_⟩
  intro x y
  rw [this.2 x y]
  apply if_congr _ rfl rfl
  unfold inBounds
  tauto

/-! ### The 8-neighbor Moore scan -/

/-- The raw 8-neighbor scan shared by the `[][]byte` implementations of
`scanForLifeforms`: the nested `for dy ... for dx ...` loop, skipping the
center, bounds-checking each neighbor and summing the raw cell bytes. -/
def scanRaw (w h : Nat) (cells : Int → Int → Nat) (x y : Int) : Nat :=
  List.foldl (fun acc dy => List.foldl (fun acc dx =>
    if dx = 0 ∧ dy = 0 then acc
    else
      let newX := x + dx
      let newY := y + dy
      if 0 ≤ newX ∧ newX < (w : Int) ∧ 0 ≤ newY ∧ newY < (h : Int) then
        acc + cells newY newX
      else acc)
    acc [-1, 0, 1]) 0 [-1, 0, 1]

/-- The eight `(dx, dy)` Moore-neighborhood offsets, in the order the
`scanForLifeforms` loops visit them. -/
def mooreOffsets : List (Int × Int) :=
  [(-1, -1), (0, -1), (1, -1), (-1, 0), (1, 0), (-1, 1), (0, 1), (1, 1)]

/-- The contribution of one neighbor offset to the scan. -/
def scanTerm (w h : Nat) (cells : Int → Int → Nat) (x y : Int)
    (d : Int × Int) : Nat :=
  if 0 ≤ x + d.1 ∧ x + d.1 < (w : Int) ∧ 0 ≤ y + d.2 ∧ y + d.2 < (h : Int) then
    cells (y + d.2) (x + d.1)
  else 0

theorem ite_add_right {c : Prop} [Decidable c] (a v : Nat) :
    (if c then a + v else a) = a + (if c then v else 0) := by
  by_cases h : c <;> simp [h]

theorem scanRaw_eq_sum (w h : Nat) (cells : Int → Int → Nat) (x y : Int) :
    scanRaw w h cells x y = ((mooreOffsets.map (scanTerm w h cells x y)).sum) := by
  simp only [scanRaw, mooreOffsets, scanTerm, List.foldl_cons, List.foldl_nil,
    List.map_cons, List.map_nil, List.sum_cons, List.sum_nil]
  norm_num [ite_add_right]
  omega

theorem scanTerm_congr (w h : Nat) (c c' : Int → Int → Nat) (x y : Int)
    (d : Int × Int)
    (hc : inBounds w h (x + d.1) (y + d.2) → c (y + d.2) (x + d.1) = c' (y + d.2) (x + d.1)) :
    scanTerm w h c x y d = scanTerm w h c' x y d := by
  unfold scanTerm
  by_cases hb : 0 ≤ x + d.1 ∧ x + d.1 < (w : Int) ∧ 0 ≤ y + d.2 ∧ y + d.2 < (h : Int)
  · rw [if_pos hb, if_pos hb, hc hb]
  · rw [if_neg hb, if_neg hb]

/-- The scan only depends on the cell values at the in-bounds Moore
neighbors of `(x, y)`; in particular not on the center cell. -/
theorem scanRaw_congr (w h : Nat) (c c' : Int → Int → Nat) (x y : Int)
    (hc : ∀ d ∈ mooreOffsets, inBounds w h (x + d.1) (y + d.2) →
      c (y + d.2) (x + d.1) = c' (y + d.2) (x + d.1)) :
    scanRaw w h c x y = scanRaw w h c' x y := by
  rw [scanRaw_eq_sum, scanRaw_eq_sum]
  have : mooreOffsets.map (scanTerm w h c x y)
      = mooreOffsets.map (scanTerm w h c' x y) := by
    apply List.map_congr_left
    intro d hd
    exact scanTerm_congr w h c c' x y d (hc d hd)
  rw [this]

/-! ### `BitGrid`: the bitmask implementation -/

/-- The bitmask game board: a flattened grid where each entry of `cells`
models one `uint64` holding 64 cells. -/
structure BitGrid where
  width : Nat
  height : Nat
  cells : List Nat

/-- `NewGrid` for the bitmask board: `(width*height + 63) / 64` zeroed words. -/
def BitGrid.NewGrid (w h : Nat) : BitGrid :=
  let totalCells := w * h
  let numUint64s := (totalCells + 63) / 64
  { width := w, height := h, cells := List.replicate numUint64s 0 }

/-- `getBitIndex`: linear index `y*width + x`, split into word index and
bit position.  Only ever called at in-bounds coordinates, where the
linear index is nonnegative. -/
def BitGrid.getBitIndex (g : BitGrid) (x y : Int) : Nat × Nat :=
  let linearIndex := (y * (g.width : Int) + x).toNat
  (linearIndex / 64, linearIndex % 64)

/-- `SetCell` for the bitmask board: bounds-checked; sets the bit when
`value == 1`, otherwise clears it with `&^` (embedded as and-with-complement). -/
def BitGrid.SetCell (g : BitGrid) (x y : Int) (value : Nat) : BitGrid :=
  if inBounds g.width g.height x y then
    let p := g.getBitIndex x y
    if value = 1 then
      { g with cells := g.cells.set p.1 (g.cells.getD p.1 0 ||| (1 <<< p.2)) }
    else
      { g with cells := g.cells.set p.1 (g.cells.getD p.1 0 &&& ((2 ^ 64 - 1) ^^^ (1 <<< p.2))) }
  else g

/-- `GetCell` for the bitmask board: bounds-checked; 1 when the bit is
set, 0 otherwise (and 0 out of bounds). -/
def BitGrid.GetCell (g : BitGrid) (x y : Int) : Nat :=
  if inBounds g.width g.height x y then
    let p := g.getBitIndex x y
    if g.cells.getD p.1 0 &&& (1 <<< p.2) ≠ 0 then 1 else 0
  else 0

theorem BitGrid.width_SetCell (g : BitGrid) (x y : Int) (v : Nat) :
    (g.SetCell x y v).width = g.width := by
  unfold SetCell
  split <;> [skip; rfl]
  split <;> rfl

theorem BitGrid.height_SetCell (g : BitGrid) (x y : Int) (v : Nat) :
    (g.SetCell x y v).height = g.height := by
  unfold SetCell
  split <;> [skip; rfl]
  split <;> rfl

theorem getD_set_self_nat (l : List Nat) (i v : Nat) (h : i < l.length) :
    (l.set i v).getD i 0 = v := by
  rw [List.getD_eq_getElem?_getD, List.getElem?_set_self h]
  rfl

theorem getD_set_ne_nat (l : List Nat) (i j v : Nat) (h : i ≠ j) :
    (l.set i v).getD j 0 = l.getD j 0 := by
  rw [List.getD_eq_getElem?_getD, List.getElem?_set_ne h, ← List.getD_eq_getElem?_getD]

theorem getD_replicate_zero (n i : Nat) :
    (List.replicate n (0 : Nat)).getD i 0 = 0 := by
  rw [List.getD_eq_getElem?_getD, List.getElem?_replicate]
  split <;> rfl

/-- Well-formedness of a bitmask board: the word slice has the length
`NewGrid` allocates. -/
def BitGrid.WF (g : BitGrid) : Prop :=
  g.cells.length = (g.width * g.height + 63) / 64

theorem BitGrid.WF_NewGrid (w h : Nat) : (BitGrid.NewGrid w h).WF := by
  simp [BitGrid.NewGrid, BitGrid.WF]

theorem BitGrid.WF_SetCell (g : BitGrid) (x y : Int) (v : Nat) (hg : g.WF) :
    (g.SetCell x y v).WF := by
  unfold BitGrid.WF at *
  unfold SetCell
  split
  · split <;> simpa using hg
  · exact hg

theorem linearIndex_lt (w h : Nat) (x y : Int) (hb : inBounds w h x y) :
    (y * (w : Int) + x).toNat < w * h := by
  obtain ⟨hx0, hxw, hy0, hyh⟩ := hb
  have h1 : (y + 1) * (w : Int) ≤ (h : Int) * (w : Int) :=
    mul_le_mul_of_nonneg_right (by omega) (by positivity)
  have hr : (y + 1) * (w : Int) = y * (w : Int) + (w : Int) := by ring
  have hyw : 0 ≤ y * (w : Int) := mul_nonneg hy0 (by positivity)
  have hcast : ((w * h : Nat) : Int) = (h : Int) * (w : Int) := by push_cast; ring
  omega

theorem linearIndex_inj (w h : Nat) (x y x' y' : Int)
    (hb : inBounds w h x y) (hb' : inBounds w h x' y')
    (heq : (y * (w : Int) + x).toNat = (y' * (w : Int) + x').toNat) :
    x = x' ∧ y = y' := by
  obtain ⟨hx0, hxw, hy0, hyh⟩ := hb
  obtain ⟨hx0', hxw', hy0', hyh'⟩ := hb'
  have hyw : 0 ≤ y * (w : Int) := mul_nonneg hy0 (by positivity)
  have hyw' : 0 ≤ y' * (w : Int) := mul_nonneg hy0' (by positivity)
  have he : y * (w : Int) + x = y' * (w : Int) + x' := by omega
  have hy : y = y' := by
    rcases lt_trichotomy y y' with hlt | hq | hlt
    · exfalso
      have : (y + 1) * (w : Int) ≤ y' * (w : Int) :=
        mul_le_mul_of_nonneg_right (by omega) (by positivity)
      have hexp : (y + 1) * (w : Int) = y * (w : Int) + (w : Int) := by ring
      omega
    · exact hq
    · exfalso
      have : (y' + 1) * (w : Int) ≤ y * (w : Int) :=
        mul_le_mul_of_nonneg_right (by omega) (by positivity)
      have hexp : (y' + 1) * (w : Int) = y' * (w : Int) + (w : Int) := by ring
      omega
  subst hy
  exact ⟨by omega, rfl⟩

theorem and_one_shift_ne_zero (c p : Nat) :
    (c &&& (1 <<< p) ≠ 0) ↔ c.testBit p := by
  rw [Nat.one_shiftLeft, Nat.and_two_pow]
  cases h : c.testBit p <;> simp [h]

theorem testBit_or_word (c p q : Nat) :
    (c ||| (1 <<< p)).testBit q = (c.testBit q || decide (p = q)) := by
  rw [Nat.one_shiftLeft, Nat.testBit_or, Nat.testBit_two_pow]

theorem testBit_clear_word (c p q : Nat) (hq : q < 64) :
    (c &&& ((2 ^ 64 - 1) ^^^ (1 <<< p))).testBit q
      = (c.testBit q && !(decide (p = q))) := by
  rw [Nat.one_shiftLeft, Nat.testBit_and, Nat.testBit_xor,
    Nat.testBit_two_pow_sub_one, Nat.testBit_two_pow]
  simp [hq]

theorem BitGrid.GetCell_eq_testBit (g : BitGrid) (x y : Int)
    (hb : inBounds g.width g.height x y) :
    g.GetCell x y =
      ((g.cells.getD (g.getBitIndex x y).1 0).testBit (g.getBitIndex x y).2).toNat := by
  unfold GetCell
  rw [if_pos hb]
  cases h : (g.cells.getD (g.getBitIndex x y).1 0).testBit (g.getBitIndex x y).2 with
  | true =>
    rw [if_pos ((and_one_shift_ne_zero _ _).2 h)]
    rfl
  | false =>
    rw [if_neg]
    · rfl
    · intro hc
      have hc' := (and_one_shift_ne_zero _ _).1 hc
      rw [h] at hc'
      exact Bool.noConfusion hc'

theorem BitGrid.GetCell_oob (g : BitGrid) (x y : Int)
    (hb : ¬ inBounds g.width g.height x y) : g.GetCell x y = 0 := by
  unfold GetCell
  rw [if_neg hb]

theorem BitGrid.GetCell_zero_or_one (g : BitGrid) (x y : Int) :
    g.GetCell x y = 0 ∨ g.GetCell x y = 1 := by
  simp only [GetCell]
  split
  · split
    · right; rfl
    · left; rfl
  · left; rfl

theorem BitGrid.GetCell_NewGrid (w h : Nat) (x y : Int) :
    (BitGrid.NewGrid w h).GetCell x y = 0 := by
  unfold GetCell NewGrid
  split
  · simp [getD_replicate_zero]
  · rfl

theorem BitGrid.getBitIndex_fst (g : BitGrid) (x y : Int) :
    (g.getBitIndex x y).1 = (y * (g.width : Int) + x).toNat / 64 := rfl

theorem BitGrid.getBitIndex_snd (g : BitGrid) (x y : Int) :
    (g.getBitIndex x y).2 = (y * (g.width : Int) + x).toNat % 64 := rfl

theorem BitGrid.getBitIndex_SetCell (g : BitGrid) (xs ys : Int) (v : Nat) (x y : Int) :
    (g.SetCell xs ys v).getBitIndex x y = g.getBitIndex x y := by
  unfold getBitIndex
  rw [width_SetCell]

theorem BitGrid.cells_SetCell_one (g : BitGrid) (x y : Int)
    (hb : inBounds g.width g.height x y) :
    (g.SetCell x y 1).cells =
      g.cells.set (g.getBitIndex x y).1
        (g.cells.getD (g.getBitIndex x y).1 0 ||| (1 <<< (g.getBitIndex x y).2)) := by
  simp only [SetCell, if_pos hb]
  rfl

theorem BitGrid.cells_SetCell_clear (g : BitGrid) (x y : Int) (v : Nat)
    (hb : inBounds g.width g.height x y) (hv : v ≠ 1) :
    (g.SetCell x y v).cells =
      g.cells.set (g.getBitIndex x y).1
        (g.cells.getD (g.getBitIndex x y).1 0 &&& ((2 ^ 64 - 1) ^^^ (1 <<< (g.getBitIndex x y).2))) := by
  simp only [SetCell, if_pos hb, if_neg hv]

/-- Full characterization of `GetCell` after `SetCell` on a well-formed
bitmask board: the targeted in-bounds cell reads back `1` exactly when the
written value was `1`, and every other cell is untouched. -/
theorem BitGrid.get_set (g : BitGrid) (hg : g.WF) (x y : Int) (v : Nat) (x' y' : Int) :
    (g.SetCell x y v).GetCell x' y' =
      if x' = x ∧ y' = y ∧ inBounds g.width g.height x y then (if v = 1 then 1 else 0)
      else g.GetCell x' y' := by
  by_cases hbxy : inBounds g.width g.height x y
  · by_cases hb' : inBounds g.width g.height x' y'
    · -- both coordinates in bounds
      have hba : inBounds (g.SetCell x y v).width (g.SetCell x y v).height x' y' := by
        rw [width_SetCell, height_SetCell]; exact hb'
      rw [BitGrid.GetCell_eq_testBit _ x' y' hba, BitGrid.getBitIndex_SetCell]
      have hlt : (y * (g.width : Int) + x).toNat < g.width * g.height :=
        linearIndex_lt g.width g.height x y hbxy
      have hlen : (g.getBitIndex x y).1 < g.cells.length := by
        rw [BitGrid.getBitIndex_fst, hg]
        omega
      by_cases hxy : x' = x ∧ y' = y
      · obtain ⟨rfl, rfl⟩ := hxy
        rw [if_pos ⟨rfl, rfl, hbxy⟩]
        by_cases hv : v = 1
        · subst hv
          rw [if_pos rfl, BitGrid.cells_SetCell_one g x' y' hbxy,
            getD_set_self_nat _ _ _ hlen, testBit_or_word]
          simp
        · rw [if_neg hv, BitGrid.cells_SetCell_clear g x' y' v hbxy hv,
            getD_set_self_nat _ _ _ hlen, testBit_clear_word]
          · simp
          · rw [BitGrid.getBitIndex_snd]
            omega
      · rw [if_neg (by
          rintro ⟨h1, h2, _⟩
          exact hxy ⟨h1, h2⟩)]
        rw [BitGrid.GetCell_eq_testBit g x' y' hb']
        have hli : (y' * (g.width : Int) + x').toNat ≠ (y * (g.width : Int) + x).toNat := by
          intro he
          obtain ⟨he1, he2⟩ := linearIndex_inj g.width g.height x' y' x y hb' hbxy he
          exact hxy ⟨he1, he2⟩
        by_cases hi : (g.getBitIndex x' y').1 = (g.getBitIndex x y).1
        · have hq : (g.getBitIndex x' y').2 ≠ (g.getBitIndex x y).2 := by
            rw [BitGrid.getBitIndex_fst, BitGrid.getBitIndex_fst] at hi
            rw [BitGrid.getBitIndex_snd, BitGrid.getBitIndex_snd]
            omega
          by_cases hv : v = 1
          · subst hv
            rw [BitGrid.cells_SetCell_one g x y hbxy, hi,
              getD_set_self_nat _ _ _ hlen, testBit_or_word]
            have hd : decide ((g.getBitIndex x y).2 = (g.getBitIndex x' y').2) = false :=
              decide_eq_false (fun he => hq he.symm)
            rw [hd, Bool.or_false]
          · rw [BitGrid.cells_SetCell_clear g x y v hbxy hv, hi,
              getD_set_self_nat _ _ _ hlen, testBit_clear_word]
            · have hd : decide ((g.getBitIndex x y).2 = (g.getBitIndex x' y').2) = false :=
                decide_eq_false (fun he => hq he.symm)
              rw [hd]
              simp
            · rw [BitGrid.getBitIndex_snd]
              omega
        · by_cases hv : v = 1
          · subst hv
            rw [BitGrid.cells_SetCell_one g x y hbxy,
              getD_set_ne_nat _ _ _ _ (fun he => hi he.symm)]
          · rw [BitGrid.cells_SetCell_clear g x y v hbxy hv,
              getD_set_ne_nat _ _ _ _ (fun he => hi he.symm)]
    · -- reading coordinate out of bounds: both sides are 0
      have h1 : (g.SetCell x y v).GetCell x' y' = 0 := by
        apply BitGrid.GetCell_oob
        rw [width_SetCell, height_SetCell]
        exact hb'
      rw [h1, if_neg (by
        rintro ⟨rfl, rfl, hcc⟩
        exact hb' hcc), BitGrid.GetCell_oob g x' y' hb']
  · -- write coordinate out of bounds: SetCell is the identity
    have h1 : g.SetCell x y v = g := by
      unfold SetCell
      rw [if_neg hbxy]
    rw [h1, if_neg (fun hc => hbxy hc.2.2)]

/-- `scanForLifeforms` for the bitmask board: the nested `dy`/`dx` loop
skipping the center, bounds-checking each neighbor and summing `GetCell`. -/
def BitGrid.scanForLifeforms (g : BitGrid) (x y : Int) : Nat :=
  List.foldl (fun acc dy => List.foldl (fun acc dx =>
    if dx = 0 ∧ dy = 0 then acc
    else
      let newX := x + dx
      let newY := y + dy
      if 0 ≤ newX ∧ newX < (g.width : Int) ∧ 0 ≤ newY ∧ newY < (g.height : Int) then
        acc + g.GetCell newX newY
      else acc)
    acc [-1, 0, 1]) 0 [-1, 0, 1]

theorem BitGrid.scanForLifeforms_eq_scanRaw (g : BitGrid) (x y : Int) :
    g.scanForLifeforms x y
      = scanRaw g.width g.height (fun yy xx => g.GetCell xx yy) x y := rfl

/-- The Conway transition applied to one cell, as the branch structure of
the `BoldlyGo` implementations writes it: an alive cell dies when lonely
or overcrowded, a dead cell is born on exactly three neighbors. -/
def lifeRule (current count : Nat) : Nat :=
  if current = 1 then (if count < 2 ∨ 3 < count then 0 else 1)
  else (if count = 3 then 1 else 0)

/-- Loop body of `BoldlyGo` for the bitmask board, writing one cell of
the next generation with `SetCell`. -/
def BitGrid.goBody (g : BitGrid) (nextGen : BitGrid) (x y : Int) : BitGrid :=
  let lifeformCount := g.scanForLifeforms x y
  let currentCell := g.GetCell x y
  if currentCell = 1 then
    if lifeformCount < 2 ∨ 3 < lifeformCount then nextGen.SetCell x y 0
    else nextGen.SetCell x y 1
  else
    if lifeformCount = 3 then nextGen.SetCell x y 1
    else nextGen.SetCell x y 0

/-- `BoldlyGo` for the bitmask board: builds a fresh `NewGrid` and writes
each cell's next state with `SetCell`, row-major. -/
def BitGrid.BoldlyGo (g : BitGrid) : BitGrid :=
  gridFold g.width g.height g.goBody (BitGrid.NewGrid g.width g.height)

theorem BitGrid.BoldlyGo_spec (g : BitGrid) :
    ((g.BoldlyGo).width = g.width ∧ (g.BoldlyGo).height = g.height ∧ (g.BoldlyGo).WF) ∧
      ∀ x y, (g.BoldlyGo).GetCell x y =
        if inBounds g.width g.height x y
        then lifeRule (g.GetCell x y) (g.scanForLifeforms x y) else 0 := by
  have hbody : ∀ (a : BitGrid) (x y : Int),
      (a.width = g.width ∧ a.height = g.height ∧ a.WF) →
      0 ≤ x → x < (g.width : Int) → 0 ≤ y → y < (g.height : Int) →
      a.GetCell x y = (BitGrid.NewGrid g.width g.height).GetCell x y →
      ((g.goBody a x y).width = g.width ∧ (g.goBody a x y).height = g.height ∧
        (g.goBody a x y).WF) ∧
      ∀ x' y', (g.goBody a x y).GetCell x' y' =
        if x' = x ∧ y' = y then lifeRule (g.GetCell x y) (g.scanForLifeforms x y)
        else a.GetCell x' y' := by
    intro a x y hQ hx0 hxw hy0 hyh _
    obtain ⟨haw, hah, hawf⟩ := hQ
    have hb : inBounds a.width a.height x y := by
      rw [haw, hah]; exact ⟨hx0, hxw, hy0, hyh⟩
    have hcong : ∀ x' y' : Int,
        (x' = x ∧ y' = y ∧ inBounds a.width a.height x y) ↔ (x' = x ∧ y' = y) := by
      intro x' y'
      constructor
      · rintro ⟨h1, h2, _⟩; exact ⟨h1, h2⟩
      · rintro ⟨h1, h2⟩; exact ⟨h1, h2, hb⟩
    unfold BitGrid.goBody
    dsimp only
    split_ifs with h1 h2 h3
    · refine ⟨⟨(BitGrid.width_SetCell _ _ _ _).trans haw,
        (BitGrid.height_SetCell _ _ _ _).trans hah, BitGrid.WF_SetCell _ _ _ _ hawf⟩, ?_⟩
      intro x' y'
      rw [BitGrid.get_set a hawf x y 0 x' y', if_congr (hcong x' y') rfl rfl]
      apply if_congr Iff.rfl _ rfl
      unfold lifeRule
      rw [if_pos h1, if_pos h2]
      rfl
    · refine ⟨⟨(BitGrid.width_SetCell _ _ _ _).trans haw,
        (BitGrid.height_SetCell _ _ _ _).trans hah, BitGrid.WF_SetCell _ _ _ _ hawf⟩, ?_⟩
      intro x' y'
      rw [BitGrid.get_set a hawf x y 1 x' y', if_congr (hcong x' y') rfl rfl]
      apply if_congr Iff.rfl _ rfl
      unfold lifeRule
      rw [if_pos h1, if_neg h2]
      rfl
    · refine ⟨⟨(BitGrid.width_SetCell _ _ _ _).trans haw,
        (BitGrid.height_SetCell _ _ _ _).trans hah, BitGrid.WF_SetCell _ _ _ _ hawf⟩, ?_⟩
      intro x' y'
      rw [BitGrid.get_set a hawf x y 1 x' y', if_congr (hcong x' y') rfl rfl]
      apply if_congr Iff.rfl _ rfl
      unfold lifeRule
      rw [if_neg h1, if_pos h3]
      rfl
    · refine ⟨⟨(BitGrid.width_SetCell _ _ _ _).trans haw,
        (BitGrid.height_SetCell _ _ _ _).trans hah, BitGrid.WF_SetCell _ _ _ _ hawf⟩, ?_⟩
      intro x' y'
      rw [BitGrid.get_set a hawf x y 0 x' y', if_congr (hcong x' y') rfl rfl]
      apply if_congr Iff.rfl _ rfl
      unfold lifeRule
      rw [if_neg h1, if_neg h3]
      rfl
  have hs := @gridFold_spec BitGrid Nat g.width g.height g.goBody
    (fun ng => ng.width = g.width ∧ ng.height = g.height ∧ ng.WF)
    (fun ng x y => ng.GetCell x y)
    (fun x y => lifeRule (g.GetCell x y) (g.scanForLifeforms x y))
    (BitGrid.NewGrid g.width g.height)
    ⟨rfl, rfl, BitGrid.WF_NewGrid _ _⟩
    hbody
  obtain ⟨hQ, hview⟩ := hs
  refine ⟨hQ, ?_⟩
  intro x y
  have hv := hview x y
  simp only [BitGrid.GetCell_NewGrid] at hv
  exact hv

/-! ### `ByteGrid`: the plain `[][]byte` implementation -/

/-- The `[][]byte` game board of the variant whose `SetCell` stores the
byte verbatim. -/
structure ByteGrid where
  width : Nat
  height : Nat
  cells : Int → Int → Nat

/-- `NewGrid`: all cells zero. -/
def ByteGrid.NewGrid (w h : Nat) : ByteGrid :=
  { width := w, height := h, cells := fun _ _ => 0 }

/-- `SetCell`: bounds-checked, stores `value` verbatim
(`grid.cells[y][x] = value`). -/
def ByteGrid.SetCell (g : ByteGrid) (x y : Int) (value : Nat) : ByteGrid :=
  if inBounds g.width g.height x y then
    { g with cells := upd2 g.cells y x value }
  else g

/-- `GetCell`: bounds-checked read, `0` out of bounds. -/
def ByteGrid.GetCell (g : ByteGrid) (x y : Int) : Nat :=
  if inBounds g.width g.height x y then g.cells y x else 0

/-- `scanForLifeforms` for the byte board: the shared raw nested loop
reading `grid.cells[newY][newX]` directly. -/
def ByteGrid.scanForLifeforms (g : ByteGrid) (x y : Int) : Nat :=
  scanRaw g.width g.height g.cells x y

/-- Loop body of the byte board's `BoldlyGo`: tests `grid.cells[y][x] == 1`
directly and writes the next state with `SetCell`. -/
def ByteGrid.goBody (g : ByteGrid) (nextGen : ByteGrid) (x y : Int) : ByteGrid :=
  let lifeformCount := g.scanForLifeforms x y
  if g.cells y x = 1 then
    if lifeformCount < 2 ∨ 3 < lifeformCount then nextGen.SetCell x y 0
    else nextGen.SetCell x y 1
  else
    if lifeformCount = 3 then nextGen.SetCell x y 1
    else nextGen.SetCell x y 0

/-- `BoldlyGo` for the byte board. -/
def ByteGrid.BoldlyGo (g : ByteGrid) : ByteGrid :=
  gridFold g.width g.height g.goBody (ByteGrid.NewGrid g.width g.height)

theorem ByteGrid.width_SetCell_byte (g : ByteGrid) (x y : Int) (v : Nat) :
    (g.SetCell x y v).width = g.width := by
  unfold SetCell
  split <;> rfl

theorem ByteGrid.height_SetCell_byte (g : ByteGrid) (x y : Int) (v : Nat) :
    (g.SetCell x y v).height = g.height := by
  unfold SetCell
  split <;> rfl

theorem ByteGrid.GetCell_oob_byte (g : ByteGrid) (x y : Int)
    (hb : ¬ inBounds g.width g.height x y) : g.GetCell x y = 0 := by
  unfold GetCell
  rw [if_neg hb]

theorem ByteGrid.GetCell_NewGrid_byte (w h : Nat) (x y : Int) :
    (ByteGrid.NewGrid w h).GetCell x y = 0 := by
  unfold GetCell NewGrid
  split <;> rfl

theorem ByteGrid.get_set_byte (g : ByteGrid) (x y : Int) (v : Nat) (x' y' : Int) :
    (g.SetCell x y v).GetCell x' y' =
      if x' = x ∧ y' = y ∧ inBounds g.width g.height x y then v
      else g.GetCell x' y' := by
  by_cases hb : inBounds g.width g.height x y
  · have hset : g.SetCell x y v = { g with cells := upd2 g.cells y x v } := by
      unfold SetCell
      rw [if_pos hb]
    rw [hset]
    by_cases hb' : inBounds g.width g.height x' y'
    · show (if inBounds g.width g.height x' y' then upd2 g.cells y x v y' x' else 0) = _
      rw [if_pos hb']
      unfold upd2 GetCell
      by_cases hxy : x' = x ∧ y' = y
      · rw [if_pos ⟨hxy.2, hxy.1⟩, if_pos ⟨hxy.1, hxy.2, hb⟩]
      · rw [if_neg (fun hc => hxy ⟨hc.2, hc.1⟩),
          if_neg (fun hc => hxy ⟨hc.1, hc.2.1⟩), if_pos hb']
    · show (if inBounds g.width g.height x' y' then upd2 g.cells y x v y' x' else 0) = _
      rw [if_neg hb', if_neg (by rintro ⟨rfl, rfl, _⟩; exact hb' hb),
        ByteGrid.GetCell_oob_byte g x' y' hb']
  · have hset : g.SetCell x y v = g := by
      unfold SetCell
      rw [if_neg hb]
    rw [hset, if_neg (fun hc => hb hc.2.2)]

theorem lifeRule_zero_or_one (current count : Nat) :
    lifeRule current count = 0 ∨ lifeRule current count = 1 := by
  unfold lifeRule
  split_ifs <;> simp

theorem ByteGrid.BoldlyGo_spec_byte (g : ByteGrid) :
    ((g.BoldlyGo).width = g.width ∧ (g.BoldlyGo).height = g.height) ∧
      ∀ x y, (g.BoldlyGo).GetCell x y =
        if inBounds g.width g.height x y
        then lifeRule (g.cells y x) (g.scanForLifeforms x y) else 0 := by
  have hbody : ∀ (a : ByteGrid) (x y : Int),
      (a.width = g.width ∧ a.height = g.height) →
      0 ≤ x → x < (g.width : Int) → 0 ≤ y → y < (g.height : Int) →
      a.GetCell x y = (ByteGrid.NewGrid g.width g.height).GetCell x y →
      ((g.goBody a x y).width = g.width ∧ (g.goBody a x y).height = g.height) ∧
      ∀ x' y', (g.goBody a x y).GetCell x' y' =
        if x' = x ∧ y' = y then lifeRule (g.cells y x) (g.scanForLifeforms x y)
        else a.GetCell x' y' := by
    intro a x y hQ hx0 hxw hy0 hyh _
    obtain ⟨haw, hah⟩ := hQ
    have hb : inBounds a.width a.height x y := by
      rw [haw, hah]; exact ⟨hx0, hxw, hy0, hyh⟩
    have hcong : ∀ x' y' : Int,
        (x' = x ∧ y' = y ∧ inBounds a.width a.height x y) ↔ (x' = x ∧ y' = y) := by
      intro x' y'
      constructor
      · rintro ⟨h1, h2, _⟩; exact ⟨h1, h2⟩
      · rintro ⟨h1, h2⟩; exact ⟨h1, h2, hb⟩
    unfold ByteGrid.goBody
    dsimp only
    split_ifs with h1 h2 h3
    · refine ⟨⟨(ByteGrid.width_SetCell_byte _ _ _ _).trans haw,
        (ByteGrid.height_SetCell_byte _ _ _ _).trans hah⟩, ?_⟩
      intro x' y'
      rw [ByteGrid.get_set_byte a x y 0 x' y', if_congr (hcong x' y') rfl rfl]
      apply if_congr Iff.rfl _ rfl
      unfold lifeRule
      rw [if_pos h1, if_pos h2]
    · refine ⟨⟨(ByteGrid.width_SetCell_byte _ _ _ _).trans haw,
        (ByteGrid.height_SetCell_byte _ _ _ _).trans hah⟩, ?_⟩
      intro x' y'
      rw [ByteGrid.get_set_byte a x y 1 x' y', if_congr (hcong x' y') rfl rfl]
      apply if_congr Iff.rfl _ rfl
      unfold lifeRule
      rw [if_pos h1, if_neg h2]
    · refine ⟨⟨(ByteGrid.width_SetCell_byte _ _ _ _).trans haw,
        (ByteGrid.height_SetCell_byte _ _ _ _).trans hah⟩, ?_⟩
      intro x' y'
      rw [ByteGrid.get_set_byte a x y 1 x' y', if_congr (hcong x' y') rfl rfl]
      apply if_congr Iff.rfl _ rfl
      unfold lifeRule
      rw [if_neg h1, if_pos h3]
    · refine ⟨⟨(ByteGrid.width_SetCell_byte _ _ _ _).trans haw,
        (ByteGrid.height_SetCell_byte _ _ _ _).trans hah⟩, ?_⟩
      intro x' y'
      rw [ByteGrid.get_set_byte a x y 0 x' y', if_congr (hcong x' y') rfl rfl]
      apply if_congr Iff.rfl _ rfl
      unfold lifeRule
      rw [if_neg h1, if_neg h3]
  have hs := @gridFold_spec ByteGrid Nat g.width g.height g.goBody
    (fun ng => ng.width = g.width ∧ ng.height = g.height)
    (fun ng x y => ng.GetCell x y)
    (fun x y => lifeRule (g.cells y x) (g.scanForLifeforms x y))
    (ByteGrid.NewGrid g.width g.height)
    ⟨rfl, rfl⟩
    hbody
  obtain ⟨hQ, hview⟩ := hs
  refine ⟨hQ, ?_⟩
  intro x y
  have hv := hview x y
  simp only [ByteGrid.GetCell_NewGrid_byte] at hv
  exact hv

/-! ### `CacheGrid`: the implementation with the neighbor-count cache -/

/-- The cached `[][]byte` game board.  The Go maps
`neighborCache map[string]int` and `cacheValid map[string]bool`, keyed by
`fmt.Sprintf("%d,%d", x, y)` (injective in `(x, y)`), are embedded as
total functions from `Int × Int`; a missing key reads as `0` / `false`,
matching Go map zero-value lookups. -/
structure CacheGrid where
  width : Nat
  height : Nat
  cells : Int → Int → Nat
  neighborCache : Int × Int → Nat
  cacheValid : Int × Int → Bool

/-- `NewGrid` for the cached board: zero cells, empty maps. -/
def CacheGrid.NewGrid (w h : Nat) : CacheGrid :=
  { width := w, height := h, cells := fun _ _ => 0,
    neighborCache := fun _ => 0, cacheValid := fun _ => false }

/-- `invalidateNeighborCache`: marks the cache entry invalid for every
in-bounds cell of the 3×3 block around `(x, y)` — the Go loop does not
skip the center. -/
def CacheGrid.invalidateNeighborCache (g : CacheGrid) (x y : Int) : CacheGrid :=
  List.foldl (fun g dy => List.foldl (fun g dx =>
    let newX := x + dx
    let newY := y + dy
    if 0 ≤ newX ∧ newX < (g.width : Int) ∧ 0 ≤ newY ∧ newY < (g.height : Int) then
      { g with cacheValid := updB g.cacheValid (newX, newY) false }
    else g)
    g [-1, 0, 1]) g [-1, 0, 1]

/-- `SetCell` for the cached board: bounds-checked verbatim store, and
cache invalidation when the stored value actually changes. -/
def CacheGrid.SetCell (g : CacheGrid) (x y : Int) (value : Nat) : CacheGrid :=
  if inBounds g.width g.height x y then
    let oldValue := g.cells y x
    let g' := { g with cells := upd2 g.cells y x value }
    if oldValue ≠ value then g'.invalidateNeighborCache x y else g'
  else g

/-- `GetCell` for the cached board. -/
def CacheGrid.GetCell (g : CacheGrid) (x y : Int) : Nat :=
  if inBounds g.width g.height x y then g.cells y x else 0

/-- `scanForLifeforms` for the cached board: returns the cached count when
the entry is valid, otherwise computes the raw 8-neighbor scan, stores it
and marks it valid.  The Go method mutates the receiver's maps, so the
embedding returns the updated grid alongside the count. -/
def CacheGrid.scanForLifeforms (g : CacheGrid) (x y : Int) : CacheGrid × Nat :=
  if g.cacheValid (x, y) then (g, g.neighborCache (x, y))
  else
    let lifeformCount := scanRaw g.width g.height g.cells x y
    ({ g with neighborCache := updN g.neighborCache (x, y) lifeformCount,
              cacheValid := updB g.cacheValid (x, y) true },
     lifeformCount)

/-- The neighbor count `scanForLifeforms` returns without yet fixing
whether the cached or the computed path is taken. -/
def CacheGrid.ruleCount (g : CacheGrid) (x y : Int) : Nat :=
  if g.cacheValid (x, y) then g.neighborCache (x, y)
  else scanRaw g.width g.height g.cells x y

/-- The `newState` computed by the cached `BoldlyGo` for cell `(x, y)`:
starts from `currentState` and only overwrites it on a rule hit. -/
def CacheGrid.ruleVal (g : CacheGrid) (x y : Int) : Nat :=
  let c := g.cells y x
  if c = 1 then (if g.ruleCount x y < 2 ∨ 3 < g.ruleCount x y then 0 else c)
  else (if g.ruleCount x y = 3 then 1 else c)

/-- One step of the cached `BoldlyGo` rule pass.  The loop state carries
the source grid (whose cache `scanForLifeforms` populates), the
next-generation cell array, and the `changedCells` set. -/
def CacheGrid.goBody (st : CacheGrid × (Int → Int → Nat) × (Int × Int → Bool))
    (x y : Int) : CacheGrid × (Int → Int → Nat) × (Int × Int → Bool) :=
  let r := st.1.scanForLifeforms x y
  let src := r.1
  let lifeformCount := r.2
  let currentState := src.cells y x
  let newState :=
    if currentState = 1 then
      (if lifeformCount < 2 ∨ 3 < lifeformCount then 0 else currentState)
    else
      (if lifeformCount = 3 then 1 else currentState)
  (src, upd2 st.2.1 y x newState,
   if currentState ≠ newState then updB st.2.2 (x, y) true else st.2.2)

/-- The `hasChangedNeighbor` test of the carry-forward pass: scans the 8
neighbors (center skipped) for membership in `changedCells`.  The Go
early `break` does not change the computed value. -/
def hasChangedNeighbor (changed : Int × Int → Bool) (x y : Int) : Bool :=
  List.foldl (fun b dy => List.foldl (fun b dx =>
    if dx = 0 ∧ dy = 0 then b
    else b || changed (x + dx, y + dy)) b [-1, 0, 1]) false [-1, 0, 1]

/-- One step of the carry-forward pass: when no neighbor changed and the
source entry is valid, copy the cached count into the next generation's
cache and mark it valid. -/
def CacheGrid.carryBody (src : CacheGrid) (changed : Int × Int → Bool)
    (acc : (Int × Int → Nat) × (Int × Int → Bool)) (x y : Int) :
    (Int × Int → Nat) × (Int × Int → Bool) :=
  if ¬ hasChangedNeighbor changed x y ∧ src.cacheValid (x, y) then
    (updN acc.1 (x, y) (src.neighborCache (x, y)), updB acc.2 (x, y) true)
  else acc

/-- `BoldlyGo` for the cached board: the rule pass filling
`nextGen.cells[y][x]` and recording `changedCells`, then the carry-forward
pass pre-populating `nextGen`'s cache for cells with no changed neighbor.
The Go method also mutates the receiver's maps through
`scanForLifeforms`, so the embedding returns the mutated source grid
together with `nextGen`. -/
def CacheGrid.BoldlyGo (g : CacheGrid) : CacheGrid × CacheGrid :=
  let nextGen := CacheGrid.NewGrid g.width g.height
  let st := gridFold g.width g.height CacheGrid.goBody
    (g, nextGen.cells, fun _ => false)
  let caches := gridFold g.width g.height (st.1.carryBody st.2.2)
    (nextGen.neighborCache, nextGen.cacheValid)
  (st.1,
   { width := g.width, height := g.height, cells := st.2.1,
     neighborCache := caches.1, cacheValid := caches.2 })

theorem CacheGrid.scan_valid (g : CacheGrid) (x y : Int)
    (h : g.cacheValid (x, y) = true) :
    g.scanForLifeforms x y = (g, g.neighborCache (x, y)) := by
  unfold scanForLifeforms
  rw [if_pos h]

theorem CacheGrid.scan_invalid (g : CacheGrid) (x y : Int)
    (h : g.cacheValid (x, y) = false) :
    g.scanForLifeforms x y =
      ({ g with
          neighborCache := updN g.neighborCache (x, y) (scanRaw g.width g.height g.cells x y),
          cacheValid := updB g.cacheValid (x, y) true },
       scanRaw g.width g.height g.cells x y) := by
  unfold scanForLifeforms
  rw [if_neg (by rw [h]; exact Bool.false_ne_true)]

theorem CacheGrid.scan_fst_cells (g : CacheGrid) (x y : Int) :
    (g.scanForLifeforms x y).1.cells = g.cells := by
  unfold scanForLifeforms
  split <;> rfl

theorem CacheGrid.scan_fst_width (g : CacheGrid) (x y : Int) :
    (g.scanForLifeforms x y).1.width = g.width := by
  unfold scanForLifeforms
  split <;> rfl

theorem CacheGrid.scan_fst_height (g : CacheGrid) (x y : Int) :
    (g.scanForLifeforms x y).1.height = g.height := by
  unfold scanForLifeforms
  split <;> rfl

/-- The loop state reached by the cached `BoldlyGo` rule pass. -/
def CacheGrid.passState (g : CacheGrid) :
    CacheGrid × (Int → Int → Nat) × (Int × Int → Bool) :=
  gridFold g.width g.height CacheGrid.goBody
    (g, (CacheGrid.NewGrid g.width g.height).cells, fun _ => false)

theorem CacheGrid.BoldlyGo_eq (g : CacheGrid) :
    g.BoldlyGo =
      (g.passState.1,
       { width := g.width, height := g.height, cells := g.passState.2.1,
         neighborCache :=
           (gridFold g.width g.height (g.passState.1.carryBody g.passState.2.2)
             ((fun _ => 0), (fun _ => false))).1,
         cacheValid :=
           (gridFold g.width g.height (g.passState.1.carryBody g.passState.2.2)
             ((fun _ => 0), (fun _ => false))).2 }) := rfl

theorem CacheGrid.pass_spec (g : CacheGrid) :
    (g.passState.1.width = g.width ∧ g.passState.1.height = g.height ∧
      g.passState.1.cells = g.cells) ∧
    ∀ x y,
      (g.passState.2.1 y x, g.passState.2.2 (x, y),
        g.passState.1.neighborCache (x, y), g.passState.1.cacheValid (x, y)) =
      (if inBounds g.width g.height x y then
        (g.ruleVal x y, decide (g.cells y x ≠ g.ruleVal x y), g.ruleCount x y, true)
      else ((0 : Nat), false, g.neighborCache (x, y), g.cacheValid (x, y))) := by
  have hbody : ∀ (a : CacheGrid × (Int → Int → Nat) × (Int × Int → Bool)) (x y : Int),
      (a.1.width = g.width ∧ a.1.height = g.height ∧ a.1.cells = g.cells) →
      0 ≤ x → x < (g.width : Int) → 0 ≤ y → y < (g.height : Int) →
      ((a.2.1 y x, a.2.2 (x, y), a.1.neighborCache (x, y), a.1.cacheValid (x, y))
        : Nat × Bool × Nat × Bool) =
        ((CacheGrid.NewGrid g.width g.height).cells y x, false,
          g.neighborCache (x, y), g.cacheValid (x, y)) →
      ((CacheGrid.goBody a x y).1.width = g.width ∧
        (CacheGrid.goBody a x y).1.height = g.height ∧
        (CacheGrid.goBody a x y).1.cells = g.cells) ∧
      ∀ x' y',
        ((CacheGrid.goBody a x y).2.1 y' x', (CacheGrid.goBody a x y).2.2 (x', y'),
          (CacheGrid.goBody a x y).1.neighborCache (x', y'),
          (CacheGrid.goBody a x y).1.cacheValid (x', y')) =
        if x' = x ∧ y' = y then
          (g.ruleVal x y, decide (g.cells y x ≠ g.ruleVal x y), g.ruleCount x y, true)
        else (a.2.1 y' x', a.2.2 (x', y'),
          a.1.neighborCache (x', y'), a.1.cacheValid (x', y')) := by
    intro a x y hQ hx0 hxw hy0 hyh hun
    obtain ⟨haw, hah, hac⟩ := hQ
    have hun1 : a.2.1 y x = 0 := congrArg (fun t => t.1) hun
    have hun2 : a.2.2 (x, y) = false := congrArg (fun t => t.2.1) hun
    have hun3 : a.1.neighborCache (x, y) = g.neighborCache (x, y) :=
      congrArg (fun t => t.2.2.1) hun
    have hun4 : a.1.cacheValid (x, y) = g.cacheValid (x, y) :=
      congrArg (fun t => t.2.2.2) hun
    -- the count returned by the scan is `ruleCount` of the original grid
    have hcount : (a.1.scanForLifeforms x y).2 = g.ruleCount x y := by
      unfold CacheGrid.ruleCount
      cases hv : a.1.cacheValid (x, y) with
      | true =>
        rw [CacheGrid.scan_valid a.1 x y hv, if_pos (hun4.symm.trans hv)]
        exact hun3
      | false =>
        rw [CacheGrid.scan_invalid a.1 x y hv,
          if_neg (by rw [← hun4, hv]; exact Bool.false_ne_true), haw, hah, hac]
    -- the scan leaves the cache unchanged away from `(x, y)` and leaves a
    -- valid, correct entry at `(x, y)`
    have hsc1 : ∀ x' y', ¬ (x' = x ∧ y' = y) →
        (a.1.scanForLifeforms x y).1.neighborCache (x', y') = a.1.neighborCache (x', y') ∧
        (a.1.scanForLifeforms x y).1.cacheValid (x', y') = a.1.cacheValid (x', y') := by
      intro x' y' hxy
      have hk : ((x', y') : Int × Int) ≠ (x, y) := by
        intro he
        rw [Prod.mk.injEq] at he
        exact hxy he
      cases hv : a.1.cacheValid (x, y) with
      | true => rw [CacheGrid.scan_valid a.1 x y hv]; exact ⟨rfl, rfl⟩
      | false =>
        rw [CacheGrid.scan_invalid a.1 x y hv]
        unfold updN updB
        dsimp only
        rw [if_neg hk, if_neg hk]
        exact ⟨rfl, rfl⟩
    have hsc2 :
        (a.1.scanForLifeforms x y).1.neighborCache (x, y) = g.ruleCount x y ∧
        (a.1.scanForLifeforms x y).1.cacheValid (x, y) = true := by
      unfold CacheGrid.ruleCount
      cases hv : a.1.cacheValid (x, y) with
      | true =>
        rw [CacheGrid.scan_valid a.1 x y hv, if_pos (hun4.symm.trans hv)]
        exact ⟨hun3, hv⟩
      | false =>
        rw [CacheGrid.scan_invalid a.1 x y hv,
          if_neg (by rw [← hun4, hv]; exact Bool.false_ne_true)]
        unfold updN updB
        dsimp only
        rw [if_pos rfl, if_pos rfl, haw, hah, hac]
        exact ⟨rfl, rfl⟩
    -- the current state read back from the scanned grid
    have hcur : (a.1.scanForLifeforms x y).1.cells y x = g.cells y x := by
      rw [CacheGrid.scan_fst_cells, hac]
    -- the new state written is `ruleVal`
    have hnew :
        (if (a.1.scanForLifeforms x y).1.cells y x = 1 then
          (if (a.1.scanForLifeforms x y).2 < 2 ∨ 3 < (a.1.scanForLifeforms x y).2 then 0
           else (a.1.scanForLifeforms x y).1.cells y x)
        else
          (if (a.1.scanForLifeforms x y).2 = 3 then 1
           else (a.1.scanForLifeforms x y).1.cells y x)) = g.ruleVal x y := by
      rw [hcur, hcount]
      unfold CacheGrid.ruleVal
      rfl
    constructor
    · exact ⟨(CacheGrid.scan_fst_width _ x y).trans haw,
        (CacheGrid.scan_fst_height _ x y).trans hah,
        (CacheGrid.scan_fst_cells _ x y).trans hac⟩
    · intro x' y'
      unfold CacheGrid.goBody
      dsimp only
      by_cases hxy : x' = x ∧ y' = y
      · obtain ⟨rfl, rfl⟩ := hxy
        rw [if_pos (show x' = x' ∧ y' = y' from ⟨rfl, rfl⟩)]
        simp only [Prod.mk.injEq]
        refine ⟨?_, ?_, hsc2.1, hsc2.2⟩
        · unfold upd2
          rw [if_pos (show y' = y' ∧ x' = x' from ⟨rfl, rfl⟩)]
          exact hnew
        · rw [hnew, hcur]
          by_cases hch : g.cells y' x' ≠ g.ruleVal x' y'
          · rw [if_pos hch]
            unfold updB
            rw [if_pos rfl]
            exact (decide_eq_true hch).symm
          · rw [if_neg hch, hun2]
            exact (decide_eq_false hch).symm
      · rw [if_neg hxy]
        simp only [Prod.mk.injEq]
        have hk : ¬ ((y' = y ∧ x' = x)) := fun hc => hxy ⟨hc.2, hc.1⟩
        have hk2 : ((x', y') : Int × Int) ≠ (x, y) := by
          intro he
          rw [Prod.mk.injEq] at he
          exact hxy he
        refine ⟨?_, ?_, (hsc1 x' y' hxy).1, (hsc1 x' y' hxy).2⟩
        · unfold upd2
          rw [if_neg hk]
        · rw [hnew, hcur]
          by_cases hch : g.cells y x ≠ g.ruleVal x y
          · rw [if_pos hch]
            unfold updB
            rw [if_neg hk2]
          · rw [if_neg hch]
  have hs := @gridFold_spec (CacheGrid × (Int → Int → Nat) × (Int × Int → Bool))
    (Nat × Bool × Nat × Bool) g.width g.height CacheGrid.goBody
    (fun a => a.1.width = g.width ∧ a.1.height = g.height ∧ a.1.cells = g.cells)
    (fun a x y => (a.2.1 y x, a.2.2 (x, y), a.1.neighborCache (x, y), a.1.cacheValid (x, y)))
    (fun x y => (g.ruleVal x y, decide (g.cells y x ≠ g.ruleVal x y), g.ruleCount x y, true))
    (g, (CacheGrid.NewGrid g.width g.height).cells, fun _ => false)
    ⟨rfl, rfl, rfl⟩
    hbody
  exact hs

theorem CacheGrid.carry_spec (src : CacheGrid) (changed : Int × Int → Bool)
    (w h : Nat) :
    ∀ x y,
      ((gridFold w h (src.carryBody changed)
          ((fun _ => 0), (fun _ => false))).1 (x, y),
        (gridFold w h (src.carryBody changed)
          ((fun _ => 0), (fun _ => false))).2 (x, y)) =
      if inBounds w h x y then
        (if ¬ hasChangedNeighbor changed x y ∧ src.cacheValid (x, y) = true
         then (src.neighborCache (x, y), true) else ((0 : Nat), false))
      else ((0 : Nat), false) := by
  have hbody : ∀ (a : (Int × Int → Nat) × (Int × Int → Bool)) (x y : Int),
      True → 0 ≤ x → x < (w : Int) → 0 ≤ y → y < (h : Int) →
      ((a.1 (x, y), a.2 (x, y)) : Nat × Bool) = ((0 : Nat), false) →
      True ∧
      ∀ x' y',
        ((src.carryBody changed a x y).1 (x', y'),
          (src.carryBody changed a x y).2 (x', y')) =
        if x' = x ∧ y' = y then
          (if ¬ hasChangedNeighbor changed x y ∧ src.cacheValid (x, y) = true
           then (src.neighborCache (x, y), true) else ((0 : Nat), false))
        else (a.1 (x', y'), a.2 (x', y')) := by
    intro a x y _ hx0 hxw hy0 hyh hun
    have hun1 : a.1 (x, y) = 0 := congrArg (fun t => t.1) hun
    have hun2 : a.2 (x, y) = false := congrArg (fun t => t.2) hun
    refine ⟨trivial, ?_⟩
    intro x' y'
    unfold CacheGrid.carryBody
    by_cases hc : ¬ hasChangedNeighbor changed x y ∧ src.cacheValid (x, y) = true
    · rw [if_pos hc]
      dsimp only
      unfold updN updB
      by_cases hk : ((x', y') : Int × Int) = (x, y)
      · have hxy : x' = x ∧ y' = y := by
          rw [Prod.mk.injEq] at hk
          exact hk
        rw [if_pos hk, if_pos hk, if_pos hxy, if_pos hc]
      · have hxy : ¬ (x' = x ∧ y' = y) := by
          intro hc'
          exact hk (by rw [Prod.mk.injEq]; exact hc')
        rw [if_neg hk, if_neg hk, if_neg hxy]
    · rw [if_neg hc]
      by_cases hxy : x' = x ∧ y' = y
      · obtain ⟨rfl, rfl⟩ := hxy
        rw [if_pos ⟨rfl, rfl⟩, if_neg hc, hun1, hun2]
      · rw [if_neg hxy]
  have hs := @gridFold_spec ((Int × Int → Nat) × (Int × Int → Bool)) (Nat × Bool)
    w h (src.carryBody changed) (fun _ => True)
    (fun a x y => (a.1 (x, y), a.2 (x, y)))
    (fun x y =>
      if ¬ hasChangedNeighbor changed x y ∧ src.cacheValid (x, y) = true
      then (src.neighborCache (x, y), true) else ((0 : Nat), false))
    ((fun _ => 0), (fun _ => false))
    trivial hbody
  exact hs.2

theorem hasChangedNeighbor_false (changed : Int × Int → Bool) (x y : Int)
    (h : hasChangedNeighbor changed x y = false) :
    ∀ d ∈ mooreOffsets, changed (x + d.1, y + d.2) = false := by
  simp only [hasChangedNeighbor, List.foldl_cons, List.foldl_nil] at h
  norm_num at h
  intro d hd
  simp only [mooreOffsets, List.mem_cons, List.not_mem_nil, or_false] at hd
  rcases hd with rfl | rfl | rfl | rfl | rfl | rfl | rfl | rfl <;> simp_all

/-- The nine offsets of the invalidation loop (center included). -/
def inval9 : List (Int × Int) :=
  [(-1, -1), (0, -1), (1, -1), (-1, 0), (0, 0), (1, 0), (-1, 1), (0, 1), (1, 1)]

/-- One step of the invalidation loop. -/
def CacheGrid.invalStep (x y : Int) (gg : CacheGrid) (d : Int × Int) : CacheGrid :=
  if 0 ≤ x + d.1 ∧ x + d.1 < (gg.width : Int) ∧ 0 ≤ y + d.2 ∧ y + d.2 < (gg.height : Int) then
    { gg with cacheValid := updB gg.cacheValid (x + d.1, y + d.2) false }
  else gg

theorem CacheGrid.invalidate_eq_foldPairs (g : CacheGrid) (x y : Int) :
    g.invalidateNeighborCache x y = inval9.foldl (CacheGrid.invalStep x y) g := by
  simp only [invalidateNeighborCache, inval9, List.foldl_cons, List.foldl_nil,
    CacheGrid.invalStep]

theorem CacheGrid.invalStep_width (x y : Int) (gg : CacheGrid) (d : Int × Int) :
    (CacheGrid.invalStep x y gg d).width = gg.width := by
  unfold invalStep
  split <;> rfl

theorem CacheGrid.invalStep_height (x y : Int) (gg : CacheGrid) (d : Int × Int) :
    (CacheGrid.invalStep x y gg d).height = gg.height := by
  unfold invalStep
  split <;> rfl

theorem CacheGrid.invalStep_cells (x y : Int) (gg : CacheGrid) (d : Int × Int) :
    (CacheGrid.invalStep x y gg d).cells = gg.cells := by
  unfold invalStep
  split <;> rfl

theorem CacheGrid.invalStep_cache (x y : Int) (gg : CacheGrid) (d : Int × Int) :
    (CacheGrid.invalStep x y gg d).neighborCache = gg.neighborCache := by
  unfold invalStep
  split <;> rfl

theorem CacheGrid.foldPairs_spec (x y : Int) : ∀ (l : List (Int × Int)) (g : CacheGrid),
    ((l.foldl (CacheGrid.invalStep x y) g).width = g.width ∧
      (l.foldl (CacheGrid.invalStep x y) g).height = g.height ∧
      (l.foldl (CacheGrid.invalStep x y) g).cells = g.cells ∧
      (l.foldl (CacheGrid.invalStep x y) g).neighborCache = g.neighborCache) ∧
    ∀ k : Int × Int, (l.foldl (CacheGrid.invalStep x y) g).cacheValid k =
      if ∃ d ∈ l, inBounds g.width g.height (x + d.1) (y + d.2) ∧ k = (x + d.1, y + d.2)
      then false else g.cacheValid k := by
  intro l
  induction l with
  | nil =>
    intro g
    constructor
    · exact ⟨rfl, rfl, rfl, rfl⟩
    · intro k
      rw [List.foldl_nil, if_neg (by rintro ⟨d, hd, _⟩; exact List.not_mem_nil d hd)]
  | cons d l ih =>
    intro g
    rw [List.foldl_cons]
    obtain ⟨⟨ihw, ihh, ihc, ihn⟩, ihv⟩ := ih (CacheGrid.invalStep x y g d)
    refine ⟨⟨ihw.trans (CacheGrid.invalStep_width x y g d),
      ihh.trans (CacheGrid.invalStep_height x y g d),
      ihc.trans (CacheGrid.invalStep_cells x y g d),
      ihn.trans (CacheGrid.invalStep_cache x y g d)⟩, ?_⟩
    intro k
    rw [ihv k]
    have hwd : (CacheGrid.invalStep x y g d).width = g.width :=
      CacheGrid.invalStep_width x y g d
    have hhd : (CacheGrid.invalStep x y g d).height = g.height :=
      CacheGrid.invalStep_height x y g d
    rw [hwd, hhd]
    have hstepv : (CacheGrid.invalStep x y g d).cacheValid k =
        if inBounds g.width g.height (x + d.1) (y + d.2) ∧ k = (x + d.1, y + d.2) then false
        else g.cacheValid k := by
      by_cases hb : inBounds g.width g.height (x + d.1) (y + d.2)
      · have hstep : CacheGrid.invalStep x y g d =
            { g with cacheValid := updB g.cacheValid (x + d.1, y + d.2) false } := by
          unfold invalStep
          exact if_pos hb
        rw [hstep]
        show updB g.cacheValid (x + d.1, y + d.2) false k = _
        unfold updB
        by_cases hk : k = (x + d.1, y + d.2)
        · rw [if_pos hk, if_pos ⟨hb, hk⟩]
        · rw [if_neg hk, if_neg (fun hc => hk hc.2)]
      · have hstep : CacheGrid.invalStep x y g d = g := by
          unfold invalStep
          exact if_neg hb
        rw [hstep, if_neg (fun hc => hb hc.1)]
    rw [hstepv]
    by_cases hA : ∃ d' ∈ l, inBounds g.width g.height (x + d'.1) (y + d'.2) ∧
        k = (x + d'.1, y + d'.2)
    · rw [if_pos hA, if_pos]
      obtain ⟨d', hd', hrest⟩ := hA
      exact ⟨d', List.mem_cons_of_mem d hd', hrest⟩
    · rw [if_neg hA]
      by_cases hB : inBounds g.width g.height (x + d.1) (y + d.2) ∧ k = (x + d.1, y + d.2)
      · rw [if_pos hB, if_pos ⟨d, List.mem_cons_self d l, hB⟩]
      · rw [if_neg hB, if_neg]
        rintro ⟨d', hd', hrest⟩
        rcases List.mem_cons.1 hd' with rfl | hmem
        · exact hB hrest
        · exact hA ⟨d', hmem, hrest⟩

theorem CacheGrid.SetCell_oob (g : CacheGrid) (x y : Int) (v : Nat)
    (hb : ¬ inBounds g.width g.height x y) : g.SetCell x y v = g := by
  unfold SetCell
  rw [if_neg hb]

theorem CacheGrid.SetCell_eq_of_same (g : CacheGrid) (x y : Int) (v : Nat)
    (hb : inBounds g.width g.height x y) (hv : g.cells y x = v) :
    g.SetCell x y v = { g with cells := upd2 g.cells y x v } := by
  unfold SetCell
  rw [if_pos hb]
  dsimp only
  rw [if_neg (fun hc => hc hv)]

theorem CacheGrid.SetCell_eq_of_diff (g : CacheGrid) (x y : Int) (v : Nat)
    (hb : inBounds g.width g.height x y) (hv : g.cells y x ≠ v) :
    g.SetCell x y v =
      ({ g with cells := upd2 g.cells y x v }).invalidateNeighborCache x y := by
  unfold SetCell
  rw [if_pos hb]
  dsimp only
  rw [if_pos hv]

theorem mem_moore_bounds (d : Int × Int) (hd : d ∈ mooreOffsets) :
    -1 ≤ d.1 ∧ d.1 ≤ 1 ∧ -1 ≤ d.2 ∧ d.2 ≤ 1 := by
  simp only [mooreOffsets, List.mem_cons, List.not_mem_nil, or_false] at hd
  rcases hd with rfl | rfl | rfl | rfl | rfl | rfl | rfl | rfl <;> norm_num

theorem mem_inval9 (a b : Int) (h1 : -1 ≤ a) (h2 : a ≤ 1) (h3 : -1 ≤ b) (h4 : b ≤ 1) :
    ((a, b) : Int × Int) ∈ inval9 := by
  have ha : a = -1 ∨ a = 0 ∨ a = 1 := by omega
  have hb : b = -1 ∨ b = 0 ∨ b = 1 := by omega
  rcases ha with rfl | rfl | rfl <;> rcases hb with rfl | rfl | rfl <;> simp [inval9]

/-- Coherence of the neighbor cache: every valid entry belongs to an
in-bounds cell and stores exactly the raw 8-neighbor scan of the current
cell contents. -/
def CacheGrid.CacheOK (g : CacheGrid) : Prop :=
  ∀ k : Int × Int, g.cacheValid k = true →
    inBounds g.width g.height k.1 k.2 ∧
    g.neighborCache k = scanRaw g.width g.height g.cells k.1 k.2

theorem CacheGrid.CacheOK_NewGrid (w h : Nat) : (CacheGrid.NewGrid w h).CacheOK := by
  intro k hk
  exact Bool.noConfusion hk

theorem CacheGrid.ruleCount_eq_scanRaw (g : CacheGrid) (hg : g.CacheOK) (x y : Int) :
    g.ruleCount x y = scanRaw g.width g.height g.cells x y := by
  unfold ruleCount
  cases hv : g.cacheValid (x, y) with
  | true =>
    rw [if_pos rfl]
    exact (hg (x, y) hv).2
  | false =>
    rw [if_neg Bool.false_ne_true]

theorem CacheGrid.scan_snd_eq_ruleCount (g : CacheGrid) (x y : Int) :
    (g.scanForLifeforms x y).2 = g.ruleCount x y := by
  cases hv : g.cacheValid (x, y) with
  | true =>
    rw [CacheGrid.scan_valid g x y hv]
    unfold ruleCount
    rw [if_pos hv]
  | false =>
    rw [CacheGrid.scan_invalid g x y hv]
    unfold ruleCount
    rw [if_neg (by rw [hv]; exact Bool.false_ne_true)]

theorem CacheGrid.CacheOK_SetCell (g : CacheGrid) (x y : Int) (v : Nat)
    (hg : g.CacheOK) : (g.SetCell x y v).CacheOK := by
  by_cases hb : inBounds g.width g.height x y
  · by_cases hv : g.cells y x = v
    · rw [CacheGrid.SetCell_eq_of_same g x y v hb hv]
      intro k hk
      obtain ⟨hin, hval⟩ := hg k hk
      refine ⟨hin, ?_⟩
      show g.neighborCache k = scanRaw g.width g.height (upd2 g.cells y x v) k.1 k.2
      rw [upd2_same g.cells y x v hv]
      exact hval
    · rw [CacheGrid.SetCell_eq_of_diff g x y v hb hv,
        CacheGrid.invalidate_eq_foldPairs]
      obtain ⟨⟨hw1, hh1, hc1, hn1⟩, hv1⟩ :=
        CacheGrid.foldPairs_spec x y inval9 { g with cells := upd2 g.cells y x v }
      intro k hk
      rw [hv1 k] at hk
      by_cases hA : ∃ d ∈ inval9,
          inBounds g.width g.height (x + d.1) (y + d.2) ∧ k = (x + d.1, y + d.2)
      · rw [if_pos hA] at hk
        exact Bool.noConfusion hk
      · rw [if_neg hA] at hk
        obtain ⟨hin, hval⟩ := hg k hk
        constructor
        · rw [hw1, hh1]
          exact hin
        · rw [hn1, hw1, hh1, hc1]
          show g.neighborCache k = scanRaw g.width g.height (upd2 g.cells y x v) k.1 k.2
          rw [hval]
          apply scanRaw_congr
          intro d hd hbd
          unfold upd2
          rw [if_neg]
          rintro ⟨he2, he1⟩
          obtain ⟨hm1, hm2, hm3, hm4⟩ := mem_moore_bounds d hd
          apply hA
          refine ⟨(-d.1, -d.2), mem_inval9 _ _ (by omega) (by omega) (by omega) (by omega), ?_, ?_⟩
          · have hx1 : x + -d.1 = k.1 := by omega
            have hy1 : y + -d.2 = k.2 := by omega
            rw [hx1, hy1]
            exact hin
          · have hx1 : x + -d.1 = k.1 := by omega
            have hy1 : y + -d.2 = k.2 := by omega
            rw [hx1, hy1]
  · rw [CacheGrid.SetCell_oob g x y v hb]
    exact hg

theorem CacheGrid.pass_components (g : CacheGrid) (x y : Int)
    (hb : inBounds g.width g.height x y) :
    g.passState.2.1 y x = g.ruleVal x y ∧
    g.passState.2.2 (x, y) = decide (g.cells y x ≠ g.ruleVal x y) ∧
    g.passState.1.neighborCache (x, y) = g.ruleCount x y ∧
    g.passState.1.cacheValid (x, y) = true := by
  have h := (CacheGrid.pass_spec g).2 x y
  rw [if_pos hb, Prod.mk.injEq, Prod.mk.injEq, Prod.mk.injEq] at h
  exact h

theorem CacheGrid.pass_components_oob (g : CacheGrid) (x y : Int)
    (hb : ¬ inBounds g.width g.height x y) :
    g.passState.2.1 y x = 0 ∧
    g.passState.2.2 (x, y) = false ∧
    g.passState.1.neighborCache (x, y) = g.neighborCache (x, y) ∧
    g.passState.1.cacheValid (x, y) = g.cacheValid (x, y) := by
  have h := (CacheGrid.pass_spec g).2 x y
  rw [if_neg hb, Prod.mk.injEq, Prod.mk.injEq, Prod.mk.injEq] at h
  exact h

theorem CacheGrid.CacheOK_pass_fst (g : CacheGrid) (hg : g.CacheOK) :
    g.passState.1.CacheOK := by
  obtain ⟨hsw, hsh, hsc⟩ := (CacheGrid.pass_spec g).1
  intro k hk
  obtain ⟨kx, ky⟩ := k
  by_cases hb : inBounds g.width g.height kx ky
  · obtain ⟨h1, h2, h3, h4⟩ := CacheGrid.pass_components g kx ky hb
    constructor
    · rw [hsw, hsh]
      exact hb
    · rw [hsw, hsh, hsc]
      rw [h3]
      exact CacheGrid.ruleCount_eq_scanRaw g hg kx ky
  · obtain ⟨h1, h2, h3, h4⟩ := CacheGrid.pass_components_oob g kx ky hb
    rw [h4] at hk
    obtain ⟨hin, _⟩ := hg (kx, ky) hk
    exact absurd hin hb

theorem CacheGrid.CacheOK_BoldlyGo_snd (g : CacheGrid) (hg : g.CacheOK) :
    (g.BoldlyGo).2.CacheOK := by
  obtain ⟨hsw, hsh, hsc⟩ := (CacheGrid.pass_spec g).1
  have hsrcOK := CacheGrid.CacheOK_pass_fst g hg
  intro k hk
  obtain ⟨kx, ky⟩ := k
  have hk' : (gridFold g.width g.height (g.passState.1.carryBody g.passState.2.2)
      ((fun _ => 0), (fun _ => false))).2 (kx, ky) = true := hk
  have hcEq := CacheGrid.carry_spec g.passState.1 g.passState.2.2 g.width g.height kx ky
  by_cases hb : inBounds g.width g.height kx ky
  · rw [if_pos hb] at hcEq
    by_cases hcond : ¬ hasChangedNeighbor g.passState.2.2 kx ky ∧
        g.passState.1.cacheValid (kx, ky) = true
    · rw [if_pos hcond] at hcEq
      rw [Prod.mk.injEq] at hcEq
      obtain ⟨hnc, _⟩ := hcEq
      constructor
      · exact hb
      · show (gridFold g.width g.height (g.passState.1.carryBody g.passState.2.2)
            ((fun _ => 0), (fun _ => false))).1 (kx, ky) =
          scanRaw g.width g.height g.passState.2.1 kx ky
        rw [hnc]
        obtain ⟨_, hval⟩ := hsrcOK (kx, ky) hcond.2
        rw [hval, hsw, hsh, hsc]
        apply scanRaw_congr
        intro d hd hbd
        have hchgf : hasChangedNeighbor g.passState.2.2 kx ky = false := by
          cases hcf : hasChangedNeighbor g.passState.2.2 kx ky
          · rfl
          · exact absurd hcf hcond.1
        have hchg := hasChangedNeighbor_false g.passState.2.2 kx ky hchgf d hd
        obtain ⟨h1, h2, _, _⟩ := CacheGrid.pass_components g (kx + d.1) (ky + d.2) hbd
        rw [h2] at hchg
        have hcells : g.cells (ky + d.2) (kx + d.1) = g.ruleVal (kx + d.1) (ky + d.2) := by
          by_cases hcc : g.cells (ky + d.2) (kx + d.1) = g.ruleVal (kx + d.1) (ky + d.2)
          · exact hcc
          · rw [decide_eq_true hcc] at hchg
            exact Bool.noConfusion hchg
        rw [hcells, h1]
    · rw [if_neg hcond, Prod.mk.injEq] at hcEq
      rw [hk'] at hcEq
      exact Bool.noConfusion hcEq.2
  · rw [if_neg hb, Prod.mk.injEq] at hcEq
    rw [hk'] at hcEq
    exact Bool.noConfusion hcEq.2

/-- Cached-board states reachable from `NewGrid` by any sequence of
`SetCell` and `BoldlyGo` (keeping the returned next generation). -/
inductive CacheGrid.Reach : CacheGrid → Prop
  | new (w h : Nat) : CacheGrid.Reach (CacheGrid.NewGrid w h)
  | set (g : CacheGrid) (x y : Int) (v : Nat) :
      CacheGrid.Reach g → CacheGrid.Reach (g.SetCell x y v)
  | go (g : CacheGrid) : CacheGrid.Reach g → CacheGrid.Reach (g.BoldlyGo).2

theorem CacheGrid.Reach_CacheOK (g : CacheGrid) (hg : g.Reach) : g.CacheOK := by
  induction hg with
  | new w h => exact CacheGrid.CacheOK_NewGrid w h
  | set g x y v _ ih => exact CacheGrid.CacheOK_SetCell g x y v ih
  | go g _ ih => exact CacheGrid.CacheOK_BoldlyGo_snd g ih

/-! ### `GoGrid`: the `grid.go` implementation -/

/-- The `grid.go` game board. -/
structure GoGrid where
  width : Nat
  height : Nat
  cells : Int → Int → Nat

/-- `NewGrid` of `grid.go`. -/
def GoGrid.NewGrid (w h : Nat) : GoGrid :=
  { width := w, height := h, cells := fun _ _ => 0 }

/-- `SetCell` of `grid.go`: takes a `bool`, stores `1` or `0`, bounds-checked. -/
def GoGrid.SetCell (g : GoGrid) (x y : Int) (alive : Bool) : GoGrid :=
  if inBounds g.width g.height x y then
    if alive then { g with cells := upd2 g.cells y x 1 }
    else { g with cells := upd2 g.cells y x 0 }
  else g

/-- `GetCell` of `grid.go`: bounds-checked read, `0` out of bounds. -/
def GoGrid.GetCell (g : GoGrid) (x y : Int) : Nat :=
  if inBounds g.width g.height x y then g.cells y x else 0

/-! ### Terminal rendering, modelled as the written character stream -/

/-- Characters printed by a `for i := 0; i < n; i++ { fmt.Print(c) }` loop. -/
def repChars (n : Nat) (c : Char) : List Char :=
  (List.range n).foldl (fun s _ => s ++ [c]) []

/-- One content row: `"│ "`, then per cell the glyph and a space, then
`"│"` and the newline of `Println`. -/
def rowChars (w : Nat) (glyph : Int → Char) : List Char :=
  (intRange w).foldl (fun s x => s ++ [glyph x, ' ']) ['│', ' '] ++ ['│', '\n']

/-- The bordered box all the renderers print: top border of `width*2+1`
dashes, one row per grid line, bottom border. -/
def boxChars (w h : Nat) (glyph : Int → Int → Char) : List Char :=
  ['┌'] ++ repChars (w * 2 + 1) '─' ++ ['┐', '\n'] ++
  (intRange h).foldl (fun s y => s ++ rowChars w (fun x => glyph x y)) [] ++
  ['└'] ++ repChars (w * 2 + 1) '─' ++ ['┘', '\n']

/-- The character stream `Display` (grid.go) writes: the combined
cursor-home and clear-screen escape `"\033[H\033[2J"` first, then the box. -/
def GoGrid.DisplayOut (g : GoGrid) : List Char :=
  ['\x1b', '[', 'H'] ++ ['\x1b', '[', '2', 'J'] ++
    boxChars g.width g.height (fun x y => if g.cells y x = 1 then '█' else ' ')

/-- The character stream `MakeItSo` (cached variant) writes: only the
cursor-home escape `"\033[H"`, then the box. -/
def CacheGrid.MakeItSoOut (g : CacheGrid) : List Char :=
  ['\x1b', '[', 'H'] ++
    boxChars g.width g.height (fun x y => if g.cells y x = 1 then '█' else ' ')

/-- The character stream `MakeItSo` (bitmask variant) writes: cursor-home,
then the box rendered through `GetCell`. -/
def BitGrid.MakeItSoOut (g : BitGrid) : List Char :=
  ['\x1b', '[', 'H'] ++
    boxChars g.width g.height (fun x y => if g.GetCell x y = 1 then '█' else ' ')

/-- The box a fully dead grid renders: the "empty box". -/
def emptyBoxChars (w h : Nat) : List Char :=
  boxChars w h (fun _ _ => ' ')

theorem mem_foldl_append {β : Type} (p : β → List Char) (l : List β)
    (init : List Char) (a : Char) :
    a ∈ l.foldl (fun s x => s ++ p x) init → a ∈ init ∨ ∃ x ∈ l, a ∈ p x := by
  induction l generalizing init with
  | nil => intro h; exact Or.inl h
  | cons b l ih =>
    intro h
    rcases ih (init ++ p b) h with h1 | ⟨x, hx, ha⟩
    · rcases List.mem_append.1 h1 with h2 | h2
      · exact Or.inl h2
      · exact Or.inr ⟨b, List.mem_cons_self b l, h2⟩
    · exact Or.inr ⟨x, List.mem_cons_of_mem b hx, ha⟩

theorem foldl_append_congr {β : Type} (p q : β → List Char) (l : List β)
    (init : List Char) (h : ∀ x ∈ l, p x = q x) :
    l.foldl (fun s x => s ++ p x) init = l.foldl (fun s x => s ++ q x) init := by
  induction l generalizing init with
  | nil => rfl
  | cons b l ih =>
    simp only [List.foldl_cons]
    rw [h b (List.mem_cons_self b l)]
    exact ih (init ++ q b) (fun x hx => h x (List.mem_cons_of_mem b hx))

theorem mem_intRange (a : Int) (n : Nat) (h : a ∈ intRange n) :
    0 ≤ a ∧ a < (n : Int) := by
  unfold intRange at h
  rw [List.mem_map] at h
  obtain ⟨i, hi, rfl⟩ := h
  rw [List.mem_range] at hi
  rw [Int.ofNat_eq_natCast]
  constructor
  · exact Int.natCast_nonneg i
  · exact_mod_cast hi

theorem mem_repChars (n : Nat) (c a : Char) (h : a ∈ repChars n c) : a = c := by
  rcases mem_foldl_append (fun _ => [c]) (List.range n) [] a h with h1 | ⟨_, _, h2⟩
  · exact absurd h1 (List.not_mem_nil a)
  · simpa using h2

theorem mem_rowChars (w : Nat) (glyph : Int → Char) (a : Char)
    (h : a ∈ rowChars w glyph) :
    a = '│' ∨ a = ' ' ∨ a = '\n' ∨ ∃ x, 0 ≤ x ∧ x < (w : Int) ∧ a = glyph x := by
  unfold rowChars at h
  rcases List.mem_append.1 h with h1 | h1
  · rcases mem_foldl_append (fun x => [glyph x, ' ']) (intRange w) ['│', ' '] a h1 with
      h2 | ⟨x, hxm, h2⟩
    · simp only [List.mem_cons, List.not_mem_nil, or_false] at h2
      tauto
    · simp only [List.mem_cons, List.not_mem_nil, or_false] at h2
      rcases h2 with h3 | h3
      · obtain ⟨hx1, hx2⟩ := mem_intRange x w hxm
        exact Or.inr (Or.inr (Or.inr ⟨x, hx1, hx2, h3⟩))
      · tauto
  · simp only [List.mem_cons, List.not_mem_nil, or_false] at h1
    tauto

theorem mem_boxChars (w h : Nat) (glyph : Int → Int → Char) (a : Char)
    (ha : a ∈ boxChars w h glyph) :
    a = '┌' ∨ a = '─' ∨ a = '┐' ∨ a = '\n' ∨ a = '│' ∨ a = ' ' ∨
    a = '└' ∨ a = '┘' ∨
    ∃ x y, 0 ≤ x ∧ x < (w : Int) ∧ 0 ≤ y ∧ y < (h : Int) ∧ a = glyph x y := by
  simp only [boxChars, List.mem_append, List.mem_cons, List.not_mem_nil, or_false] at ha
  rcases ha with (((((h1 | h1) | (h1 | h1)) | h1) | h1) | h1) | (h1 | h1)
  · tauto
  · have := mem_repChars _ _ _ h1
    tauto
  · tauto
  · tauto
  · rcases mem_foldl_append (fun y => rowChars w (fun x => glyph x y))
      (intRange h) [] a h1 with h3 | ⟨y, hy, h3⟩
    · exact absurd h3 (List.not_mem_nil a)
    · obtain ⟨hy1, hy2⟩ := mem_intRange y h hy
      rcases mem_rowChars w (fun x => glyph x y) a h3 with h4 | h4 | h4 | ⟨x, hx1, hx2, h4⟩
      · tauto
      · tauto
      · tauto
      · right; right; right; right; right; right; right; right
        exact ⟨x, y, hx1, hx2, hy1, hy2, h4⟩
  · tauto
  · have := mem_repChars _ _ _ h1
    tauto
  · tauto
  · tauto

/-! ### The neighbor scan as a count of live in-bounds Moore neighbors -/

theorem sum_ite_eq_countP (l : List (Int × Int)) (p : Int × Int → Bool) :
    (l.map (fun d => if p d then (1 : Nat) else 0)).sum = l.countP p := by
  induction l with
  | nil => rfl
  | cons d l ih =>
    rw [List.map_cons, List.sum_cons, ih, List.countP_cons]
    cases h : p d <;> simp [h, Nat.add_comm]

/-- The live-neighbor count as the spec phrases it: the number of alive
cells among the in-bounds Moore-neighborhood cells of `(x, y)`. -/
def BitGrid.specLiveNeighbors (g : BitGrid) (x y : Int) : Nat :=
  mooreOffsets.countP (fun d =>
    decide (inBounds g.width g.height (x + d.1) (y + d.2)) &&
    decide (g.GetCell (x + d.1) (y + d.2) = 1))

theorem BitGrid.scanTerm_eq_indicator (g : BitGrid) (x y : Int) (d : Int × Int) :
    scanTerm g.width g.height (fun yy xx => g.GetCell xx yy) x y d =
      if (decide (inBounds g.width g.height (x + d.1) (y + d.2)) &&
          decide (g.GetCell (x + d.1) (y + d.2) = 1)) then (1 : Nat) else 0 := by
  by_cases hb : 0 ≤ x + d.1 ∧ x + d.1 < (g.width : Int) ∧
      0 ≤ y + d.2 ∧ y + d.2 < (g.height : Int)
  · have hstep : scanTerm g.width g.height (fun yy xx => g.GetCell xx yy) x y d
        = g.GetCell (x + d.1) (y + d.2) := by
      unfold scanTerm
      exact if_pos hb
    rw [hstep, decide_eq_true (show inBounds g.width g.height (x + d.1) (y + d.2) from hb),
      Bool.true_and]
    rcases BitGrid.GetCell_zero_or_one g (x + d.1) (y + d.2) with h0 | h1
    · rw [h0, if_neg]
      simp
    · rw [h1, if_pos]
      simp
  · have hstep : scanTerm g.width g.height (fun yy xx => g.GetCell xx yy) x y d = 0 := by
      unfold scanTerm
      exact if_neg hb
    rw [hstep,
      decide_eq_false (show ¬ inBounds g.width g.height (x + d.1) (y + d.2) from hb),
      Bool.false_and, if_neg]
    exact Bool.false_ne_true

theorem BitGrid.scan_eq_spec (g : BitGrid) (x y : Int) :
    g.scanForLifeforms x y = g.specLiveNeighbors x y := by
  rw [BitGrid.scanForLifeforms_eq_scanRaw, scanRaw_eq_sum]
  unfold specLiveNeighbors
  rw [← sum_ite_eq_countP]
  congr 1
  apply List.map_congr_left
  intro d _
  exact BitGrid.scanTerm_eq_indicator g x y d

theorem lifeRule_one_iff (v c : Nat) (hv : v = 0 ∨ v = 1) :
    lifeRule v c = 1 ↔ ((v = 1 ∧ (c = 2 ∨ c = 3)) ∨ (v = 0 ∧ c = 3)) := by
  unfold lifeRule
  rcases hv with rfl | rfl <;> split_ifs <;> simp_all <;> omega

/-! ### The blinker oscillator -/

theorem blinker_count_h (g : BitGrid) (cx cy x y : Int)
    (hg : ∀ x' y', g.GetCell x' y' =
      if y' = cy ∧ (x' = cx - 1 ∨ x' = cx ∨ x' = cx + 1) then 1 else 0)
    (hin : ∀ x' y', (y' = cy ∧ (x' = cx - 1 ∨ x' = cx ∨ x' = cx + 1)) →
      inBounds g.width g.height x' y') :
    g.scanForLifeforms x y = mooreOffsets.countP (fun d =>
      decide (y + d.2 = cy ∧ (x + d.1 = cx - 1 ∨ x + d.1 = cx ∨ x + d.1 = cx + 1))) := by
  rw [BitGrid.scan_eq_spec]
  unfold BitGrid.specLiveNeighbors
  apply List.countP_congr
  intro d _
  constructor
  · intro hc
    rw [Bool.and_eq_true, decide_eq_true_eq, decide_eq_true_eq] at hc
    obtain ⟨hbnd, hval⟩ := hc
    rw [hg] at hval
    by_cases hp : (y + d.2 = cy ∧ (x + d.1 = cx - 1 ∨ x + d.1 = cx ∨ x + d.1 = cx + 1))
    · exact decide_eq_true hp
    · rw [if_neg hp] at hval
      exact absurd hval (by omega)
  · intro hc
    rw [decide_eq_true_eq] at hc
    rw [Bool.and_eq_true, decide_eq_true_eq, decide_eq_true_eq]
    refine ⟨hin _ _ hc, ?_⟩
    rw [hg, if_pos hc]

theorem blinker_count_v (g : BitGrid) (cx cy x y : Int)
    (hg : ∀ x' y', g.GetCell x' y' =
      if x' = cx ∧ (y' = cy - 1 ∨ y' = cy ∨ y' = cy + 1) then 1 else 0)
    (hin : ∀ x' y', (x' = cx ∧ (y' = cy - 1 ∨ y' = cy ∨ y' = cy + 1)) →
      inBounds g.width g.height x' y') :
    g.scanForLifeforms x y = mooreOffsets.countP (fun d =>
      decide (x + d.1 = cx ∧ (y + d.2 = cy - 1 ∨ y + d.2 = cy ∨ y + d.2 = cy + 1))) := by
  rw [BitGrid.scan_eq_spec]
  unfold BitGrid.specLiveNeighbors
  apply List.countP_congr
  intro d _
  constructor
  · intro hc
    rw [Bool.and_eq_true, decide_eq_true_eq, decide_eq_true_eq] at hc
    obtain ⟨hbnd, hval⟩ := hc
    rw [hg] at hval
    by_cases hp : (x + d.1 = cx ∧ (y + d.2 = cy - 1 ∨ y + d.2 = cy ∨ y + d.2 = cy + 1))
    · exact decide_eq_true hp
    · rw [if_neg hp] at hval
      exact absurd hval (by omega)
  · intro hc
    rw [decide_eq_true_eq] at hc
    rw [Bool.and_eq_true, decide_eq_true_eq, decide_eq_true_eq]
    refine ⟨hin _ _ hc, ?_⟩
    rw [hg, if_pos hc]

/-- The number of horizontal-blinker cells among the Moore neighbors of
the cell at relative offset `(u, v) = (x - cx, y - cy)` from the center. -/
def cntH (u v : Int) : Nat :=
  if v = -1 ∨ v = 1 then
    (if u = 0 then 3 else if u = -1 ∨ u = 1 then 2 else if u = -2 ∨ u = 2 then 1 else 0)
  else if v = 0 then
    (if u = 0 then 2 else if u = -1 ∨ u = 1 ∨ u = -2 ∨ u = 2 then 1 else 0)
  else 0

/-- The same count for the vertical blinker. -/
def cntV (u v : Int) : Nat :=
  if u = -1 ∨ u = 1 then
    (if v = 0 then 3 else if v = -1 ∨ v = 1 then 2 else if v = -2 ∨ v = 2 then 1 else 0)
  else if u = 0 then
    (if v = 0 then 2 else if v = -1 ∨ v = 1 ∨ v = -2 ∨ v = 2 then 1 else 0)
  else 0

theorem cnt_h_eval (u v : Int) :
    (mooreOffsets.countP (fun d =>
      decide (v + d.2 = 0 ∧ (u + d.1 = -1 ∨ u + d.1 = 0 ∨ u + d.1 = 1)))) = cntH u v := by
  by_cases hu : -3 ≤ u ∧ u ≤ 3
  · by_cases hv : -2 ≤ v ∧ v ≤ 2
    · obtain ⟨hu1, hu2⟩ := hu
      obtain ⟨hv1, hv2⟩ := hv
      interval_cases u <;> interval_cases v <;> decide
    · have h0 : (mooreOffsets.countP (fun d =>
          decide (v + d.2 = 0 ∧ (u + d.1 = -1 ∨ u + d.1 = 0 ∨ u + d.1 = 1)))) = 0 := by
        rw [List.countP_eq_zero]
        intro d hd
        obtain ⟨h1, h2, h3, h4⟩ := mem_moore_bounds d hd
        simp only [decide_eq_true_eq]
        omega
      rw [h0]
      unfold cntH
      split_ifs <;> omega
  · have h0 : (mooreOffsets.countP (fun d =>
        decide (v + d.2 = 0 ∧ (u + d.1 = -1 ∨ u + d.1 = 0 ∨ u + d.1 = 1)))) = 0 := by
      rw [List.countP_eq_zero]
      intro d hd
      obtain ⟨h1, h2, h3, h4⟩ := mem_moore_bounds d hd
      simp only [decide_eq_true_eq]
      omega
    rw [h0]
    unfold cntH
    split_ifs <;> omega

theorem cnt_v_eval (u v : Int) :
    (mooreOffsets.countP (fun d =>
      decide (u + d.1 = 0 ∧ (v + d.2 = -1 ∨ v + d.2 = 0 ∨ v + d.2 = 1)))) = cntV u v := by
  by_cases hu : -2 ≤ u ∧ u ≤ 2
  · by_cases hv : -3 ≤ v ∧ v ≤ 3
    · obtain ⟨hu1, hu2⟩ := hu
      obtain ⟨hv1, hv2⟩ := hv
      interval_cases u <;> interval_cases v <;> decide
    · have h0 : (mooreOffsets.countP (fun d =>
          decide (u + d.1 = 0 ∧ (v + d.2 = -1 ∨ v + d.2 = 0 ∨ v + d.2 = 1)))) = 0 := by
        rw [List.countP_eq_zero]
        intro d hd
        obtain ⟨h1, h2, h3, h4⟩ := mem_moore_bounds d hd
        simp only [decide_eq_true_eq]
        omega
      rw [h0]
      unfold cntV
      split_ifs <;> omega
  · have h0 : (mooreOffsets.countP (fun d =>
        decide (u + d.1 = 0 ∧ (v + d.2 = -1 ∨ v + d.2 = 0 ∨ v + d.2 = 1)))) = 0 := by
      rw [List.countP_eq_zero]
      intro d hd
      obtain ⟨h1, h2, h3, h4⟩ := mem_moore_bounds d hd
      simp only [decide_eq_true_eq]
      omega
    rw [h0]
    unfold cntV
    split_ifs <;> omega

theorem blinker_scan_h (g : BitGrid) (cx cy x y : Int)
    (hg : ∀ x' y', g.GetCell x' y' =
      if y' = cy ∧ (x' = cx - 1 ∨ x' = cx ∨ x' = cx + 1) then 1 else 0)
    (hin : ∀ x' y', (y' = cy ∧ (x' = cx - 1 ∨ x' = cx ∨ x' = cx + 1)) →
      inBounds g.width g.height x' y') :
    g.scanForLifeforms x y = cntH (x - cx) (y - cy) := by
  rw [blinker_count_h g cx cy x y hg hin, ← cnt_h_eval (x - cx) (y - cy)]
  apply List.countP_congr
  intro d _
  simp only [decide_eq_true_eq]
  omega

theorem blinker_scan_v (g : BitGrid) (cx cy x y : Int)
    (hg : ∀ x' y', g.GetCell x' y' =
      if x' = cx ∧ (y' = cy - 1 ∨ y' = cy ∨ y' = cy + 1) then 1 else 0)
    (hin : ∀ x' y', (x' = cx ∧ (y' = cy - 1 ∨ y' = cy ∨ y' = cy + 1)) →
      inBounds g.width g.height x' y') :
    g.scanForLifeforms x y = cntV (x - cx) (y - cy) := by
  rw [blinker_count_v g cx cy x y hg hin, ← cnt_v_eval (x - cx) (y - cy)]
  apply List.countP_congr
  intro d _
  simp only [decide_eq_true_eq]
  omega

theorem blinker_step_h (g : BitGrid) (cx cy : Int)
    (hcx : 2 ≤ cx) (hcx2 : cx + 3 ≤ (g.width : Int))
    (hcy : 2 ≤ cy) (hcy2 : cy + 3 ≤ (g.height : Int))
    (hg : ∀ x y, g.GetCell x y =
      if y = cy ∧ (x = cx - 1 ∨ x = cx ∨ x = cx + 1) then 1 else 0) :
    ∀ x y, (g.BoldlyGo).GetCell x y =
      if x = cx ∧ (y = cy - 1 ∨ y = cy ∨ y = cy + 1) then 1 else 0 := by
  intro x y
  have hin : ∀ x' y', (y' = cy ∧ (x' = cx - 1 ∨ x' = cx ∨ x' = cx + 1)) →
      inBounds g.width g.height x' y' := by
    rintro x' y' ⟨h1, h2⟩
    unfold inBounds
    omega
  by_cases hb : inBounds g.width g.height x y
  · rw [(BitGrid.BoldlyGo_spec g).2 x y, if_pos hb,
      blinker_scan_h g cx cy x y hg hin, hg x y]
    unfold lifeRule cntH
    split_ifs <;> (try contradiction) <;> omega
  · rw [BitGrid.GetCell_oob _ x y (by
      rw [(BitGrid.BoldlyGo_spec g).1.1, (BitGrid.BoldlyGo_spec g).1.2.1]
      exact hb)]
    rw [if_neg]
    rintro ⟨rfl, hy⟩
    unfold inBounds at hb
    omega

theorem blinker_step_v (g : BitGrid) (cx cy : Int)
    (hcx : 2 ≤ cx) (hcx2 : cx + 3 ≤ (g.width : Int))
    (hcy : 2 ≤ cy) (hcy2 : cy + 3 ≤ (g.height : Int))
    (hg : ∀ x y, g.GetCell x y =
      if x = cx ∧ (y = cy - 1 ∨ y = cy ∨ y = cy + 1) then 1 else 0) :
    ∀ x y, (g.BoldlyGo).GetCell x y =
      if y = cy ∧ (x = cx - 1 ∨ x = cx ∨ x = cx + 1) then 1 else 0 := by
  intro x y
  have hin : ∀ x' y', (x' = cx ∧ (y' = cy - 1 ∨ y' = cy ∨ y' = cy + 1)) →
      inBounds g.width g.height x' y' := by
    rintro x' y' ⟨h1, h2⟩
    unfold inBounds
    omega
  by_cases hb : inBounds g.width g.height x y
  · rw [(BitGrid.BoldlyGo_spec g).2 x y, if_pos hb,
      blinker_scan_v g cx cy x y hg hin, hg x y]
    unfold lifeRule cntV
    split_ifs <;> (try contradiction) <;> omega
  · rw [BitGrid.GetCell_oob _ x y (by
      rw [(BitGrid.BoldlyGo_spec g).1.1, (BitGrid.BoldlyGo_spec g).1.2.1]
      exact hb)]
    rw [if_neg]
    rintro ⟨rfl, hy⟩
    unfold inBounds at hb
    omega

/-! ### Equivalence of the bitmask and byte-array boards -/

/-- Simulation relation: same dimensions and the same observable cell
values everywhere. -/
def simRel (gb : BitGrid) (gy : ByteGrid) : Prop :=
  gb.width = gy.width ∧ gb.height = gy.height ∧
  ∀ x y, gb.GetCell x y = gy.GetCell x y

theorem simRel_NewGrid (w h : Nat) : simRel (BitGrid.NewGrid w h) (ByteGrid.NewGrid w h) := by
  refine ⟨rfl, rfl, ?_⟩
  intro x y
  rw [BitGrid.GetCell_NewGrid, ByteGrid.GetCell_NewGrid_byte]

theorem simRel_SetCell (gb : BitGrid) (gy : ByteGrid) (hwf : gb.WF)
    (hr : simRel gb gy) (x y : Int) (v : Nat) (hv : v = 0 ∨ v = 1) :
    simRel (gb.SetCell x y v) (gy.SetCell x y v) := by
  obtain ⟨hw, hh, hc⟩ := hr
  refine ⟨(BitGrid.width_SetCell _ _ _ _).trans (hw.trans (ByteGrid.width_SetCell_byte _ _ _ _).symm),
    (BitGrid.height_SetCell _ _ _ _).trans (hh.trans (ByteGrid.height_SetCell_byte _ _ _ _).symm), ?_⟩
  intro x' y'
  rw [BitGrid.get_set gb hwf x y v x' y', ByteGrid.get_set_byte gy x y v x' y']
  apply if_congr (by rw [hw, hh]) _ (hc x' y')
  rcases hv with rfl | rfl
  · rfl
  · rfl

theorem ByteGrid.GetCell_inb (g : ByteGrid) (x y : Int)
    (hb : inBounds g.width g.height x y) : g.GetCell x y = g.cells y x := by
  unfold GetCell
  rw [if_pos hb]

theorem simRel_scan (gb : BitGrid) (gy : ByteGrid) (hr : simRel gb gy) (x y : Int) :
    gb.scanForLifeforms x y = gy.scanForLifeforms x y := by
  obtain ⟨hw, hh, hc⟩ := hr
  rw [BitGrid.scanForLifeforms_eq_scanRaw, hw, hh]
  unfold ByteGrid.scanForLifeforms
  apply scanRaw_congr
  intro d _ hbd
  rw [hc (x + d.1) (y + d.2), ByteGrid.GetCell_inb gy _ _ hbd]

theorem simRel_BoldlyGo (gb : BitGrid) (gy : ByteGrid)
    (hr : simRel gb gy) : simRel gb.BoldlyGo gy.BoldlyGo := by
  obtain ⟨hbw, hbh, hbwf⟩ := (BitGrid.BoldlyGo_spec gb).1
  obtain ⟨hyw, hyh⟩ := (ByteGrid.BoldlyGo_spec_byte gy).1
  obtain ⟨hw, hh, hc⟩ := hr
  refine ⟨hbw.trans (hw.trans hyw.symm), hbh.trans (hh.trans hyh.symm), ?_⟩
  intro x y
  rw [(BitGrid.BoldlyGo_spec gb).2 x y, (ByteGrid.BoldlyGo_spec_byte gy).2 x y]
  by_cases hb : inBounds gy.width gy.height x y
  · rw [if_pos (show inBounds gb.width gb.height x y by rw [hw, hh]; exact hb), if_pos hb,
      simRel_scan gb gy ⟨hw, hh, hc⟩ x y, ← ByteGrid.GetCell_inb gy x y hb, ← hc x y]
  · rw [if_neg (show ¬ inBounds gb.width gb.height x y by rw [hw, hh]; exact hb), if_neg hb]

/-- Replaying a list of `SetCell` calls `(x, y, value)` against the
bitmask board, starting from `NewGrid`. -/
def applyOpsBit (w h : Nat) (ops : List (Int × Int × Nat)) : BitGrid :=
  ops.foldl (fun g op => g.SetCell op.1 op.2.1 op.2.2) (BitGrid.NewGrid w h)

/-- Replaying the same calls against the byte board. -/
def applyOpsByte (w h : Nat) (ops : List (Int × Int × Nat)) : ByteGrid :=
  ops.foldl (fun g op => g.SetCell op.1 op.2.1 op.2.2) (ByteGrid.NewGrid w h)

theorem sim_fold (ops : List (Int × Int × Nat)) :
    ∀ (gb : BitGrid) (gy : ByteGrid), gb.WF → simRel gb gy →
    (∀ op ∈ ops, op.2.2 = 0 ∨ op.2.2 = 1) →
    (ops.foldl (fun g op => g.SetCell op.1 op.2.1 op.2.2) gb).WF ∧
    simRel (ops.foldl (fun g op => g.SetCell op.1 op.2.1 op.2.2) gb)
      (ops.foldl (fun g op => g.SetCell op.1 op.2.1 op.2.2) gy) := by
  induction ops with
  | nil =>
    intro gb gy hwf hr _
    exact ⟨hwf, hr⟩
  | cons op ops ih =>
    intro gb gy hwf hr hops
    simp only [List.foldl_cons]
    exact ih _ _ (BitGrid.WF_SetCell gb op.1 op.2.1 op.2.2 hwf)
      (simRel_SetCell gb gy hwf hr op.1 op.2.1 op.2.2 (hops op (List.mem_cons_self op ops)))
      (fun o ho => hops o (List.mem_cons_of_mem op ho))

theorem applyOps_sim (w h : Nat) (ops : List (Int × Int × Nat))
    (hops : ∀ op ∈ ops, op.2.2 = 0 ∨ op.2.2 = 1) :
    simRel (applyOpsBit w h ops) (applyOpsByte w h ops) :=
  (sim_fold ops (BitGrid.NewGrid w h) (ByteGrid.NewGrid w h)
    (BitGrid.WF_NewGrid w h) (simRel_NewGrid w h) hops).2

/-! ### Degenerate (zero-dimension) grids -/

theorem foldl_const {α β : Type} (l : List β) (a : α) :
    l.foldl (fun a _ => a) a = a := by
  induction l generalizing a with
  | nil => rfl
  | cons b l ih => exact ih a

theorem BitGrid.BoldlyGo_degenerate (g : BitGrid) (hg : g.width = 0 ∨ g.height = 0) :
    g.BoldlyGo = BitGrid.NewGrid g.width g.height := by
  unfold BoldlyGo gridFold
  rcases hg with h0 | h0 <;> rw [h0]
  · simp only [intRange_zero, List.foldl_nil]
    exact foldl_const _ _
  · simp only [intRange_zero, List.foldl_nil]

theorem rowChars_zero (glyph : Int → Char) :
    rowChars 0 glyph = ['│', ' ', '│', '\n'] := rfl

theorem boxChars_degenerate (w h : Nat) (glyph : Int → Int → Char)
    (hg : w = 0 ∨ h = 0) : boxChars w h glyph = emptyBoxChars w h := by
  unfold emptyBoxChars boxChars
  rcases hg with rfl | rfl
  · rw [foldl_append_congr (fun y => rowChars 0 (fun x => glyph x y))
      (fun y => rowChars 0 (fun _ => ' ')) (intRange h) []
      (fun y _ => rfl)]
  · rfl

theorem mem_inval9_bounds (d : Int × Int) (hd : d ∈ inval9) :
    -1 ≤ d.1 ∧ d.1 ≤ 1 ∧ -1 ≤ d.2 ∧ d.2 ≤ 1 := by
  simp only [inval9, List.mem_cons, List.not_mem_nil, or_false] at hd
  rcases hd with rfl | rfl | rfl | rfl | rfl | rfl | rfl | rfl | rfl <;> norm_num

theorem not_inBounds_degenerate (w h : Nat) (hg : w = 0 ∨ h = 0) (x y : Int) :
    ¬ inBounds w h x y := by
  unfold inBounds
  rcases hg with rfl | rfl <;> omega

theorem boxChars_no_esc (w h : Nat) (glyph : Int → Int → Char)
    (hglyph : ∀ x y, glyph x y = '█' ∨ glyph x y = ' ') :
    ∀ c ∈ boxChars w h glyph, c ≠ '\x1b' := by
  intro c hc
  rcases mem_boxChars w h glyph c hc with
    h | h | h | h | h | h | h | h | ⟨x, y, _, _, _, _, h⟩
  · subst h; decide
  · subst h; decide
  · subst h; decide
  · subst h; decide
  · subst h; decide
  · subst h; decide
  · subst h; decide
  · subst h; decide
  · subst h
    rcases hglyph x y with h1 | h1 <;> rw [h1] <;> decide

theorem no_clear_infix (r : List Char) (hr : ∀ c ∈ r, c ≠ '\x1b') :
    ∀ s t, s ++ ['\x1b', '[', '2', 'J'] ++ t ≠ ('\x1b' :: '[' :: 'H' :: r) := by
  intro s t heq
  cases s with
  | nil =>
    simp only [List.nil_append, List.cons_append] at heq
    injection heq with h1 h2
    injection h2 with h3 h4
    injection h4 with h5 h6
    exact absurd h5 (by decide)
  | cons a s =>
    simp only [List.cons_append] at heq
    injection heq with h1 h2
    have hmem : '\x1b' ∈ (s ++ ['\x1b', '[', '2', 'J']) ++ t :=
      List.mem_append.2 (Or.inl (List.mem_append.2 (Or.inr (List.mem_cons_self _ _))))
    rw [h2] at hmem
    simp only [List.mem_cons] at hmem
    rcases hmem with h3 | h3 | h3
    · exact absurd h3 (by decide)
    · exact absurd h3 (by decide)
    · exact hr _ h3 rfl

/-! ## The claims -/

/-- C1: on the bitmask board, for every in-bounds coordinate the cell of
the grid `BoldlyGo` returns is alive (`1`) exactly when the source cell is
alive with 2 or 3 live in-bounds Moore neighbors or dead with exactly 3,
and dead (`0`) otherwise, with no wraparound at edges. -/
theorem C1_conway_rule (g : BitGrid) (x y : Int)
    (hb : inBounds g.width g.height x y) :
    (g.BoldlyGo).GetCell x y =
      if (g.GetCell x y = 1 ∧ (g.specLiveNeighbors x y = 2 ∨ g.specLiveNeighbors x y = 3))
          ∨ (g.GetCell x y = 0 ∧ g.specLiveNeighbors x y = 3)
      then 1 else 0 := by
  rw [(BitGrid.BoldlyGo_spec g).2 x y, if_pos hb, BitGrid.scan_eq_spec]
  have hv := BitGrid.GetCell_zero_or_one g x y
  by_cases hp : (g.GetCell x y = 1 ∧
      (g.specLiveNeighbors x y = 2 ∨ g.specLiveNeighbors x y = 3))
      ∨ (g.GetCell x y = 0 ∧ g.specLiveNeighbors x y = 3)
  · rw [if_pos hp]
    exact (lifeRule_one_iff _ _ hv).2 hp
  · rw [if_neg hp]
    rcases lifeRule_zero_or_one (g.GetCell x y) (g.specLiveNeighbors x y) with h0 | h1
    · exact h0
    · exact absurd ((lifeRule_one_iff _ _ hv).1 h1) hp

theorem C1_witness :
    inBounds (BitGrid.NewGrid 3 3).width (BitGrid.NewGrid 3 3).height 1 1 ∧
    ((BitGrid.NewGrid 3 3).BoldlyGo).GetCell 1 1 =
      (if ((BitGrid.NewGrid 3 3).GetCell 1 1 = 1 ∧
            ((BitGrid.NewGrid 3 3).specLiveNeighbors 1 1 = 2 ∨
              (BitGrid.NewGrid 3 3).specLiveNeighbors 1 1 = 3))
          ∨ ((BitGrid.NewGrid 3 3).GetCell 1 1 = 0 ∧
              (BitGrid.NewGrid 3 3).specLiveNeighbors 1 1 = 3)
      then 1 else 0) :=
  ⟨by decide, C1_conway_rule (BitGrid.NewGrid 3 3) 1 1 (by decide)⟩

/-- C2: on every cached-board state reachable from `NewGrid` by `SetCell`
and `BoldlyGo` calls, the count returned by `scanForLifeforms` — whether
read from the cache or freshly computed — equals the raw uncached
8-neighbor scan of the grid's current cells, at every in-bounds
coordinate. -/
theorem C2_cache_coherent (g : CacheGrid) (hg : g.Reach) (x y : Int)
    (hb : inBounds g.width g.height x y) :
    (g.scanForLifeforms x y).2 = scanRaw g.width g.height g.cells x y := by
  rw [CacheGrid.scan_snd_eq_ruleCount]
  exact CacheGrid.ruleCount_eq_scanRaw g (CacheGrid.Reach_CacheOK g hg) x y

theorem C2_witness :
    (((CacheGrid.NewGrid 3 3).SetCell 1 1 1).BoldlyGo).2.Reach ∧
    inBounds (((CacheGrid.NewGrid 3 3).SetCell 1 1 1).BoldlyGo).2.width
      (((CacheGrid.NewGrid 3 3).SetCell 1 1 1).BoldlyGo).2.height 1 1 ∧
    ((((CacheGrid.NewGrid 3 3).SetCell 1 1 1).BoldlyGo).2.scanForLifeforms 1 1).2 =
      scanRaw (((CacheGrid.NewGrid 3 3).SetCell 1 1 1).BoldlyGo).2.width
        (((CacheGrid.NewGrid 3 3).SetCell 1 1 1).BoldlyGo).2.height
        (((CacheGrid.NewGrid 3 3).SetCell 1 1 1).BoldlyGo).2.cells 1 1 :=
  ⟨CacheGrid.Reach.go _ (CacheGrid.Reach.set _ 1 1 1 (CacheGrid.Reach.new 3 3)),
   by decide,
   C2_cache_coherent _
     (CacheGrid.Reach.go _ (CacheGrid.Reach.set _ 1 1 1 (CacheGrid.Reach.new 3 3)))
     1 1 (by decide)⟩

/-- C3: at every out-of-bounds coordinate, `GetCell` returns dead (`0`)
and `SetCell` returns the grid unchanged, on both the `grid.go` board and
the bitmask board. -/
theorem C3_oob_noop (gg : GoGrid) (gb : BitGrid) (x y : Int)
    (hgg : ¬ inBounds gg.width gg.height x y)
    (hgb : ¬ inBounds gb.width gb.height x y) :
    gg.GetCell x y = 0 ∧ (∀ a : Bool, gg.SetCell x y a = gg) ∧
    gb.GetCell x y = 0 ∧ (∀ v : Nat, gb.SetCell x y v = gb) := by
  refine ⟨?_, ?_, BitGrid.GetCell_oob gb x y hgb, ?_⟩
  · unfold GoGrid.GetCell
    rw [if_neg hgg]
  · intro a
    unfold GoGrid.SetCell
    rw [if_neg hgg]
  · intro v
    unfold BitGrid.SetCell
    rw [if_neg hgb]

theorem C3_witness :
    ¬ inBounds (GoGrid.NewGrid 2 2).width (GoGrid.NewGrid 2 2).height 5 0 ∧
    ¬ inBounds (BitGrid.NewGrid 2 2).width (BitGrid.NewGrid 2 2).height 5 0 ∧
    ((GoGrid.NewGrid 2 2).GetCell 5 0 = 0 ∧
      (∀ a : Bool, (GoGrid.NewGrid 2 2).SetCell 5 0 a = GoGrid.NewGrid 2 2) ∧
      (BitGrid.NewGrid 2 2).GetCell 5 0 = 0 ∧
      (∀ v : Nat, (BitGrid.NewGrid 2 2).SetCell 5 0 v = BitGrid.NewGrid 2 2)) :=
  ⟨by decide, by decide, C3_oob_noop (GoGrid.NewGrid 2 2) (BitGrid.NewGrid 2 2) 5 0
    (by decide) (by decide)⟩

/-- C4: the cached `BoldlyGo` never mutates the source grid's cells: the
mutated receiver it returns has the dimensions and the cell-for-cell
contents the grid had before the call — the next generation is written
only into the separately allocated output grid. -/
theorem C4_source_not_mutated (g : CacheGrid) :
    (g.BoldlyGo).1.width = g.width ∧ (g.BoldlyGo).1.height = g.height ∧
    (g.BoldlyGo).1.cells = g.cells ∧
    ∀ x y, (g.BoldlyGo).1.GetCell x y = g.GetCell x y := by
  obtain ⟨hw, hh, hc⟩ := (CacheGrid.pass_spec g).1
  refine ⟨hw, hh, hc, ?_⟩
  intro x y
  show g.passState.1.GetCell x y = g.GetCell x y
  unfold CacheGrid.GetCell
  rw [hw, hh, hc]

/-- C5: at an in-bounds coordinate of the cached board, a `SetCell` whose
value equals the current cell leaves every cache validity flag unchanged,
while a value-changing `SetCell` marks the entry of the written cell and
of every in-bounds Moore neighbor invalid. -/
theorem C5_invalidation (g : CacheGrid) (x y : Int)
    (hb : inBounds g.width g.height x y) (v : Nat) :
    (g.cells y x = v → (g.SetCell x y v).cacheValid = g.cacheValid) ∧
    (g.cells y x ≠ v →
      (g.SetCell x y v).cacheValid (x, y) = false ∧
      ∀ d ∈ mooreOffsets,
        inBounds g.width g.height (x + d.1) (y + d.2) →
        (g.SetCell x y v).cacheValid (x + d.1, y + d.2) = false) := by
  constructor
  · intro hv
    rw [CacheGrid.SetCell_eq_of_same g x y v hb hv]
  · intro hv
    rw [CacheGrid.SetCell_eq_of_diff g x y v hb hv, CacheGrid.invalidate_eq_foldPairs]
    obtain ⟨_, hval⟩ :=
      CacheGrid.foldPairs_spec x y inval9 { g with cells := upd2 g.cells y x v }
    constructor
    · rw [hval (x, y)]
      rw [if_pos ⟨(0, 0), by norm_num [inval9], by simpa using hb, by norm_num⟩]
    · intro d hd hbd
      rw [hval (x + d.1, y + d.2)]
      obtain ⟨h1, h2, h3, h4⟩ := mem_moore_bounds d hd
      rw [if_pos ⟨(d.1, d.2), mem_inval9 d.1 d.2 h1 h2 h3 h4, hbd, rfl⟩]

theorem C5_witness :
    inBounds (CacheGrid.NewGrid 3 3).width (CacheGrid.NewGrid 3 3).height 1 1 ∧
    (((CacheGrid.NewGrid 3 3).cells 1 1 = 1 →
        ((CacheGrid.NewGrid 3 3).SetCell 1 1 1).cacheValid =
          (CacheGrid.NewGrid 3 3).cacheValid) ∧
      ((CacheGrid.NewGrid 3 3).cells 1 1 ≠ 1 →
        ((CacheGrid.NewGrid 3 3).SetCell 1 1 1).cacheValid (1, 1) = false ∧
        ∀ d ∈ mooreOffsets,
          inBounds (CacheGrid.NewGrid 3 3).width (CacheGrid.NewGrid 3 3).height
            (1 + d.1) (1 + d.2) →
          ((CacheGrid.NewGrid 3 3).SetCell 1 1 1).cacheValid (1 + d.1, 1 + d.2) = false)) :=
  ⟨by decide, C5_invalidation (CacheGrid.NewGrid 3 3) 1 1 (by decide) 1⟩

/-- A horizontal blinker centered at `(2, 2)` on a 5×5 bitmask board. -/
def blinker5 : BitGrid :=
  (((BitGrid.NewGrid 5 5).SetCell 1 2 1).SetCell 2 2 1).SetCell 3 2 1

theorem blinker5_shape : ∀ x y : Int,
    blinker5.GetCell x y = if y = 2 ∧ (x = 2 - 1 ∨ x = 2 ∨ x = 2 + 1) then 1 else 0 := by
  have hw : blinker5.width = 5 := by decide
  have hh : blinker5.height = 5 := by decide
  intro x y
  by_cases hb : inBounds blinker5.width blinker5.height x y
  · rw [hw, hh] at hb
    unfold inBounds at hb
    obtain ⟨h1, h2, h3, h4⟩ := hb
    have h2' : x < (5 : Int) := by exact_mod_cast h2
    have h4' : y < (5 : Int) := by exact_mod_cast h4
    interval_cases x <;> interval_cases y <;> decide
  · rw [BitGrid.GetCell_oob blinker5 x y hb, if_neg]
    rintro ⟨rfl, hx⟩
    apply hb
    rw [hw, hh]
    unfold inBounds
    omega

/-- C6: a horizontal blinker centered at `(cx, cy)`, at least two cells
away from every border, turns into exactly the vertical blinker after one
`BoldlyGo` and back into exactly the original horizontal pattern after a
second — the blinker has period 2. -/
theorem C6_blinker_period_two (g : BitGrid) (cx cy : Int)
    (hcx : 2 ≤ cx) (hcx2 : cx + 3 ≤ (g.width : Int))
    (hcy : 2 ≤ cy) (hcy2 : cy + 3 ≤ (g.height : Int))
    (hg : ∀ x y, g.GetCell x y =
      if y = cy ∧ (x = cx - 1 ∨ x = cx ∨ x = cx + 1) then 1 else 0) :
    (∀ x y, (g.BoldlyGo).GetCell x y =
      if x = cx ∧ (y = cy - 1 ∨ y = cy ∨ y = cy + 1) then 1 else 0) ∧
    (∀ x y, ((g.BoldlyGo).BoldlyGo).GetCell x y = g.GetCell x y) := by
  have h1 := blinker_step_h g cx cy hcx hcx2 hcy hcy2 hg
  have hw : (g.BoldlyGo).width = g.width := (BitGrid.BoldlyGo_spec g).1.1
  have hh : (g.BoldlyGo).height = g.height := (BitGrid.BoldlyGo_spec g).1.2.1
  have h2 := blinker_step_v g.BoldlyGo cx cy hcx (by rw [hw]; exact hcx2)
    hcy (by rw [hh]; exact hcy2) h1
  refine ⟨h1, ?_⟩
  intro x y
  rw [h2 x y, hg x y]

theorem C6_witness :
    ((2 : Int) ≤ 2 ∧ (2 : Int) + 3 ≤ (blinker5.width : Int) ∧
      (2 : Int) ≤ 2 ∧ (2 : Int) + 3 ≤ (blinker5.height : Int) ∧
      ∀ x y, blinker5.GetCell x y =
        if y = 2 ∧ (x = 2 - 1 ∨ x = 2 ∨ x = 2 + 1) then 1 else 0) ∧
    (∀ x y, (blinker5.BoldlyGo).GetCell x y =
      if x = 2 ∧ (y = 2 - 1 ∨ y = 2 ∨ y = 2 + 1) then 1 else 0) ∧
    (∀ x y, ((blinker5.BoldlyGo).BoldlyGo).GetCell x y = blinker5.GetCell x y) :=
  ⟨⟨by decide, by decide, by decide, by decide, blinker5_shape⟩,
   (C6_blinker_period_two blinker5 2 2 (by decide) (by decide) (by decide) (by decide)
      blinker5_shape).1,
   (C6_blinker_period_two blinker5 2 2 (by decide) (by decide) (by decide) (by decide)
      blinker5_shape).2⟩

/-- C7: boards created with zero width or zero height stay safe under
every operation: reads give `0`, writes are no-ops, `BoldlyGo` yields an
equally empty grid, and rendering emits the cursor-home escape followed by
just the empty box. -/
theorem C7_degenerate (g : BitGrid) (c : CacheGrid)
    (hg : g.width = 0 ∨ g.height = 0) (hc : c.width = 0 ∨ c.height = 0) :
    (∀ x y, g.GetCell x y = 0) ∧
    (∀ x y : Int, ∀ v : Nat, g.SetCell x y v = g) ∧
    g.BoldlyGo = BitGrid.NewGrid g.width g.height ∧
    g.MakeItSoOut = ['\x1b', '[', 'H'] ++ emptyBoxChars g.width g.height ∧
    (∀ x y, (c.BoldlyGo).2.GetCell x y = 0) ∧
    (∀ x y : Int, ∀ v : Nat, c.SetCell x y v = c) ∧
    c.MakeItSoOut = ['\x1b', '[', 'H'] ++ emptyBoxChars c.width c.height := by
  refine ⟨?_, ?_, BitGrid.BoldlyGo_degenerate g hg, ?_, ?_, ?_, ?_⟩
  · intro x y
    exact BitGrid.GetCell_oob g x y (not_inBounds_degenerate _ _ hg x y)
  · intro x y v
    unfold BitGrid.SetCell
    rw [if_neg (not_inBounds_degenerate _ _ hg x y)]
  · unfold BitGrid.MakeItSoOut
    rw [boxChars_degenerate _ _ _ hg]
  · intro x y
    have hbw : (c.BoldlyGo).2.width = c.width := rfl
    have hbh : (c.BoldlyGo).2.height = c.height := rfl
    unfold CacheGrid.GetCell
    rw [hbw, hbh, if_neg (not_inBounds_degenerate _ _ hc x y)]
  · intro x y v
    exact CacheGrid.SetCell_oob c x y v (not_inBounds_degenerate _ _ hc x y)
  · unfold CacheGrid.MakeItSoOut
    rw [boxChars_degenerate _ _ _ hc]

theorem C7_witness :
    ((BitGrid.NewGrid 0 3).width = 0 ∨ (BitGrid.NewGrid 0 3).height = 0) ∧
    ((CacheGrid.NewGrid 4 0).width = 0 ∨ (CacheGrid.NewGrid 4 0).height = 0) ∧
    ((∀ x y, (BitGrid.NewGrid 0 3).GetCell x y = 0) ∧
      (∀ x y : Int, ∀ v : Nat, (BitGrid.NewGrid 0 3).SetCell x y v = BitGrid.NewGrid 0 3) ∧
      (BitGrid.NewGrid 0 3).BoldlyGo =
        BitGrid.NewGrid (BitGrid.NewGrid 0 3).width (BitGrid.NewGrid 0 3).height ∧
      (BitGrid.NewGrid 0 3).MakeItSoOut =
        ['\x1b', '[', 'H'] ++
          emptyBoxChars (BitGrid.NewGrid 0 3).width (BitGrid.NewGrid 0 3).height ∧
      (∀ x y, ((CacheGrid.NewGrid 4 0).BoldlyGo).2.GetCell x y = 0) ∧
      (∀ x y : Int, ∀ v : Nat,
        (CacheGrid.NewGrid 4 0).SetCell x y v = CacheGrid.NewGrid 4 0) ∧
      (CacheGrid.NewGrid 4 0).MakeItSoOut =
        ['\x1b', '[', 'H'] ++
          emptyBoxChars (CacheGrid.NewGrid 4 0).width (CacheGrid.NewGrid 4 0).height) :=
  ⟨Or.inl rfl, Or.inr rfl,
   C7_degenerate (BitGrid.NewGrid 0 3) (CacheGrid.NewGrid 4 0) (Or.inl rfl) (Or.inr rfl)⟩

/-- C8 (counterexample to the spec's claim): the `grid.go` renderer
`Display` does not restrict itself to cursor repositioning — its output
contains the full clear-screen escape `ESC [ 2 J`. -/
theorem C8_counterexample :
    ∃ s t, (GoGrid.NewGrid 1 1).DisplayOut = s ++ ['\x1b', '[', '2', 'J'] ++ t :=
  ⟨['\x1b', '[', 'H'],
   boxChars 1 1 (fun x y => if (GoGrid.NewGrid 1 1).cells y x = 1 then '█' else ' '),
   rfl⟩

/-- C8 (amended): the `MakeItSo` renderers of the cached and bitmask
boards emit exactly the cursor-home escape `ESC [ H` followed by an
escape-free box — in particular no clear-screen sequence `ESC [ 2 J`
anywhere — while the `grid.go` `Display` emits cursor-home followed
immediately by the clear-screen escape. -/
theorem C8_render_home_only (g : CacheGrid) (b : BitGrid) (d : GoGrid) :
    (∃ r, g.MakeItSoOut = '\x1b' :: '[' :: 'H' :: r ∧ ∀ ch ∈ r, ch ≠ '\x1b') ∧
    (∀ s t, g.MakeItSoOut ≠ s ++ ['\x1b', '[', '2', 'J'] ++ t) ∧
    (∃ r, b.MakeItSoOut = '\x1b' :: '[' :: 'H' :: r ∧ ∀ ch ∈ r, ch ≠ '\x1b') ∧
    (∀ s t, b.MakeItSoOut ≠ s ++ ['\x1b', '[', '2', 'J'] ++ t) ∧
    (∃ u, d.DisplayOut = ['\x1b', '[', 'H'] ++ ['\x1b', '[', '2', 'J'] ++ u) := by
  have hesc1 : ∀ ch ∈ boxChars g.width g.height
      (fun x y => if g.cells y x = 1 then '█' else ' '), ch ≠ '\x1b' :=
    boxChars_no_esc _ _ _ (fun x y => by
      by_cases h : g.cells y x = 1
      · rw [if_pos h]
        exact Or.inl rfl
      · rw [if_neg h]
        exact Or.inr rfl)
  have hesc2 : ∀ ch ∈ boxChars b.width b.height
      (fun x y => if b.GetCell x y = 1 then '█' else ' '), ch ≠ '\x1b' :=
    boxChars_no_esc _ _ _ (fun x y => by
      by_cases h : b.GetCell x y = 1
      · rw [if_pos h]
        exact Or.inl rfl
      · rw [if_neg h]
        exact Or.inr rfl)
  refine ⟨⟨boxChars g.width g.height (fun x y => if g.cells y x = 1 then '█' else ' '),
      rfl, hesc1⟩, ?_,
    ⟨boxChars b.width b.height (fun x y => if b.GetCell x y = 1 then '█' else ' '),
      rfl, hesc2⟩, ?_,
    ⟨boxChars d.width d.height (fun x y => if d.cells y x = 1 then '█' else ' '), rfl⟩⟩
  · intro s t heq
    exact no_clear_infix _ hesc1 s t heq.symm
  · intro s t heq
    exact no_clear_infix _ hesc2 s t heq.symm

/-- C9: the bitmask board and the byte board are observationally
equivalent — after replaying any sequence of `SetCell` calls with values
in {0, 1} from `NewGrid`, `GetCell` agrees everywhere, and the next
generations their `BoldlyGo` implementations return agree cell-for-cell. -/
theorem C9_bit_byte_equiv (w h : Nat) (ops : List (Int × Int × Nat))
    (hops : ∀ op ∈ ops, op.2.2 = 0 ∨ op.2.2 = 1) :
    (∀ x y, (applyOpsBit w h ops).GetCell x y = (applyOpsByte w h ops).GetCell x y) ∧
    (∀ x y, ((applyOpsBit w h ops).BoldlyGo).GetCell x y =
      ((applyOpsByte w h ops).BoldlyGo).GetCell x y) := by
  have hsim := applyOps_sim w h ops hops
  exact ⟨hsim.2.2, (simRel_BoldlyGo _ _ hsim).2.2⟩

theorem C9_witness :
    (∀ op ∈ ([(0, 0, 1), (1, 1, 1), (0, 1, 0)] : List (Int × Int × Nat)),
      op.2.2 = 0 ∨ op.2.2 = 1) ∧
    ((∀ x y, (applyOpsBit 2 2 [(0, 0, 1), (1, 1, 1), (0, 1, 0)]).GetCell x y =
        (applyOpsByte 2 2 [(0, 0, 1), (1, 1, 1), (0, 1, 0)]).GetCell x y) ∧
      (∀ x y, ((applyOpsBit 2 2 [(0, 0, 1), (1, 1, 1), (0, 1, 0)]).BoldlyGo).GetCell x y =
        ((applyOpsByte 2 2 [(0, 0, 1), (1, 1, 1), (0, 1, 0)]).BoldlyGo).GetCell x y)) :=
  ⟨by decide, C9_bit_byte_equiv 2 2 [(0, 0, 1), (1, 1, 1), (0, 1, 0)] (by decide)⟩

/-- C10 (counterexample to the claim): the cached `BoldlyGo` copies a
non-binary source byte through to the next generation — a lone cell
holding `2`, stored verbatim by `SetCell`, reappears as `2` in the grid
`BoldlyGo` returns. -/
theorem C10_counterexample :
    ((((CacheGrid.NewGrid 1 1).SetCell 0 0 2).BoldlyGo).2).GetCell 0 0 = 2 := by
  decide

/-- C10 (amended): the byte board's `BoldlyGo` always returns a grid of
the source's dimensions whose every cell is `0` or `1`; the cached
variant guarantees this only when every source cell is already `0` or
`1`, because its rule pass copies the current byte through whenever no
rule overwrites it. -/
theorem C10_next_gen_binary (g : ByteGrid) (c : CacheGrid)
    (hc : ∀ x y, c.cells y x = 0 ∨ c.cells y x = 1) :
    ((g.BoldlyGo).width = g.width ∧ (g.BoldlyGo).height = g.height ∧
      ∀ x y, (g.BoldlyGo).GetCell x y = 0 ∨ (g.BoldlyGo).GetCell x y = 1) ∧
    ((c.BoldlyGo).2.width = c.width ∧ (c.BoldlyGo).2.height = c.height ∧
      ∀ x y, (c.BoldlyGo).2.GetCell x y = 0 ∨ (c.BoldlyGo).2.GetCell x y = 1) := by
  constructor
  · obtain ⟨⟨hw, hh⟩, hcell⟩ := ByteGrid.BoldlyGo_spec_byte g
    refine ⟨hw, hh, ?_⟩
    intro x y
    rw [hcell x y]
    by_cases hb : inBounds g.width g.height x y
    · rw [if_pos hb]
      exact lifeRule_zero_or_one _ _
    · rw [if_neg hb]
      exact Or.inl rfl
  · refine ⟨rfl, rfl, ?_⟩
    intro x y
    have hbw : (c.BoldlyGo).2.width = c.width := rfl
    have hbh : (c.BoldlyGo).2.height = c.height := rfl
    unfold CacheGrid.GetCell
    rw [hbw, hbh]
    by_cases hb : inBounds c.width c.height x y
    · rw [if_pos hb]
      have hcells : (c.BoldlyGo).2.cells y x = c.ruleVal x y := by
        show c.passState.2.1 y x = c.ruleVal x y
        exact (CacheGrid.pass_components c x y hb).1
      rw [hcells]
      simp only [CacheGrid.ruleVal]
      split_ifs <;> first | exact Or.inl rfl | exact Or.inr rfl | exact hc x y
    · rw [if_neg hb]
      exact Or.inl rfl

theorem C10_witness :
    (∀ x y : Int, (CacheGrid.NewGrid 2 2).cells y x = 0 ∨
      (CacheGrid.NewGrid 2 2).cells y x = 1) ∧
    ((((ByteGrid.NewGrid 2 2).BoldlyGo).width = (ByteGrid.NewGrid 2 2).width ∧
        ((ByteGrid.NewGrid 2 2).BoldlyGo).height = (ByteGrid.NewGrid 2 2).height ∧
        ∀ x y, ((ByteGrid.NewGrid 2 2).BoldlyGo).GetCell x y = 0 ∨
          ((ByteGrid.NewGrid 2 2).BoldlyGo).GetCell x y = 1) ∧
      (((CacheGrid.NewGrid 2 2).BoldlyGo).2.width = (CacheGrid.NewGrid 2 2).width ∧
        ((CacheGrid.NewGrid 2 2).BoldlyGo).2.height = (CacheGrid.NewGrid 2 2).height ∧
        ∀ x y, ((CacheGrid.NewGrid 2 2).BoldlyGo).2.GetCell x y = 0 ∨
          ((CacheGrid.NewGrid 2 2).BoldlyGo).2.GetCell x y = 1)) :=
  ⟨fun x y => Or.inl rfl,
   C10_next_gen_binary (ByteGrid.NewGrid 2 2) (CacheGrid.NewGrid 2 2)
     (fun x y => Or.inl rfl)⟩
